import Mathlib

/- Verification development for the img_catalog_tui repository.

Shallow embedding of the core data model and operations: filename tag
parsing (utils/file_utils.py), the TOML sidecar document store
(core/imageset_toml.py), the Imageset entity and its validated setters
(core/imageset.py), the folder scanner (core/folder.py), and the
TOML-to-database sync engine (db/sync.py, db/imagesetfiles.py,
db/imagesetfile_tags.py, db/imageset_sections.py, db/imagesets.py). -/

/-- ASCII lowercase conversion of one character (the document keys and
configured vocabularies are ASCII, where Python str.lower agrees). -/
def asciiLower (c : Char) : Char :=
  if 'A' ≤ c ∧ c ≤ 'Z' then Char.ofNat (c.toNat + 32) else c

/-- Python str.lower() restricted to ASCII, kernel-reducible. -/
def String.pyLower (s : String) : String :=
  String.mk (s.data.map asciiLower)

/-- Boolean test that the first list is an initial segment of the second. -/
def seqLeads [BEq α] : List α → List α → Bool
  | [], _ => true
  | _ :: _, [] => false
  | a :: as, b :: bs => a == b && seqLeads as bs

/-- Test that the second string is an initial segment of the first. -/
def String.pyStarts (s pre : String) : Bool :=
  seqLeads pre.data s.data

/-- Fueled worker for Python str.replace: scan left to right, replacing
non-overlapping occurrences of pat (assumed non-empty) by rep. -/
def pyReplaceGo (pat rep : List Char) : Nat → List Char → List Char
  | 0, cs => cs
  | _ + 1, [] => []
  | fuel + 1, c :: rest =>
    if pat ≠ [] ∧ seqLeads pat (c :: rest) then
      rep ++ pyReplaceGo pat rep fuel ((c :: rest).drop pat.length)
    else
      c :: pyReplaceGo pat rep fuel rest

/-- Python str.replace(pat, rep) for non-empty pat (all call sites pass a
pattern beginning with an underscore). -/
def String.pyReplace (s pat rep : String) : String :=
  String.mk (pyReplaceGo pat.data rep.data s.data.length s.data)

/-- Fueled worker for Python str.split with a non-empty separator. -/
def pySplitGo (sep : List Char) : Nat → List Char → List Char → List (List Char)
  | 0, acc, cs => [acc.reverse ++ cs]
  | _ + 1, acc, [] => [acc.reverse]
  | fuel + 1, acc, c :: rest =>
    if sep ≠ [] ∧ seqLeads sep (c :: rest) then
      acc.reverse :: pySplitGo sep fuel [] ((c :: rest).drop sep.length)
    else
      pySplitGo sep fuel (c :: acc) rest

/-- Python str.split(sep) for a non-empty separator. -/
def String.pySplit (s sep : String) : List String :=
  (pySplitGo sep.data (s.data.length + 1) [] s.data).map String.mk

/-- Join a list of strings with a separator (str.join). -/
def joinWith (sep : String) : List String → String
  | [] => ""
  | [x] => x
  | x :: y :: rest => x ++ sep ++ joinWith sep (y :: rest)

namespace ImgCatalog

/-- Python-style whitespace test used by str.strip(). -/
def isPyWs (c : Char) : Bool :=
  c == ' ' || c == '\t' || c == '\n' || c == '\r' || c == Char.ofNat 11 || c == Char.ofNat 12

/-- Python str.strip(): remove leading and trailing whitespace. -/
def pyStrip (s : String) : String :=
  String.mk (((s.toList.dropWhile isPyWs).reverse.dropWhile isPyWs).reverse)

/-- Boolean test that the first list occurs contiguously inside the second. -/
def seqHasSub [BEq α] (pat : List α) : List α → Bool
  | [] => seqLeads pat []
  | b :: bs => seqLeads pat (b :: bs) || seqHasSub pat bs

/-- Python substring containment: pat in hay. -/
def strContainsSub (hay pat : String) : Bool :=
  seqHasSub pat.toList hay.toList

/-- Index of the last dot in a character list (str.rfind('.'), the
os.path.splitext helper). -/
def lastDotIdx : List Char → Option Nat
  | [] => none
  | c :: cs =>
    match lastDotIdx cs with
    | some i => some (i + 1)
    | none => if c = '.' then some 0 else none

/-- Case split of os.path.splitext over the last-dot search result. -/
def pySplitextAux (s : String) : Option Nat → String × String
  | none => (s, "")
  | some i =>
    if (s.toList.take i).any (fun c => c != '.') then
      (String.mk (s.toList.take i), String.mk (s.toList.drop i))
    else (s, "")

/-- CPython os.path.splitext on a bare file name (no directory separators):
split at the last dot, unless every character before it is a dot
(leading-dot names such as ".bashrc" keep their dot in the stem). -/
def pySplitext (s : String) : String × String :=
  pySplitextAux s (lastDotIdx s.toList)

/-- os.path.basename for POSIX-style string paths (callers pass bare file names). -/
def pyBasename (s : String) : String :=
  (s.pySplit "/").getLastD s

/-- Embedding of file_utils.parse_file_parts. -/
def parse_file_parts (file_path : String) : String × String :=
  pySplitext (pyBasename file_path)

/-- Embedding of file_utils.is_image_file with its hard-coded image extensions. -/
def is_image_file (file_path : String) : Bool :=
  let e := (parse_file_parts file_path).2.pyLower
  [".jpg", ".jpeg", ".png", ".gif", ".bmp", ".webp"].contains e

/-- One tag-stripping step of file_utils.get_imageset_from_filename: when
"_tag" occurs in the current stem, record the tag and remove every
occurrence of "_tag" from the stem (Python str.replace). -/
def stripTagStep (acc : String × List String) (tag : String) : String × List String :=
  if strContainsSub acc.1 ("_" ++ tag) then
    (acc.1.pyReplace ("_" ++ tag) "", acc.2 ++ [tag])
  else acc

/-- Embedding of file_utils.get_imageset_from_filename: returns
(imageset base name, extension, recognized tags in vocabulary order). -/
def get_imageset_from_filename (file_name : String) (file_tags : List String) :
    String × String × List String :=
  let pe := parse_file_parts file_name
  let r := file_tags.foldl stripTagStep (pe.1, [])
  (r.1, pe.2, r.2)

/-- Tag-presence test used across the code base: "_tag_" or "_tag." occurs
in the file name (Imageset._get_imageset_files, Imageset.add_tag_to_file,
db/sync.py tag extraction). -/
def hasTagPattern (tag file_name : String) : Bool :=
  strContainsSub file_name ("_" ++ tag ++ "_") || strContainsSub file_name ("_" ++ tag ++ ".")

/-- Python str.lstrip('.'). -/
def lstripDot (s : String) : String :=
  String.mk (s.toList.dropWhile (fun c => c == '.'))

/- TOML sidecar document model (core/imageset_toml.py).

The document is a Python dict preserving insertion order; the code reads
and writes two levels: top-level keys holding str/int/bool values and
section tables holding str/int/bool values, matching the documented
sidecar shape. -/

/-- Primitive TOML values the sidecar setters accept (str, int, bool). -/
inductive Prim where
  | s (v : String)
  | i (v : Int)
  | b (v : Bool)
deriving DecidableEq, Repr

/-- A nested section table: key to primitive value. -/
abbrev Table := List (String × Prim)

/-- A top-level document entry: a primitive or a section table. -/
inductive Entry where
  | p (v : Prim)
  | tbl (t : Table)
deriving DecidableEq, Repr

/-- The in-memory TOML document, an insertion-ordered association list
mirroring the Python dict. -/
abbrev Doc := List (String × Entry)

/-- Embedding of ImagesetToml._find_key_case_insensitive combined with the
subsequent dict access: the first entry whose key matches case-insensitively. -/
def findCI (l : List (String × α)) (key : String) : Option (String × α) :=
  l.find? (fun kv => kv.1.pyLower == key.pyLower)

/-- Python dict assignment d[k] = v on an insertion-ordered association
list: update the first binding of k in place, else append. -/
def assocSet : List (String × α) → String → α → List (String × α)
  | [], k, v => [(k, v)]
  | kv' :: rest, k, v =>
    if kv'.1 == k then (k, v) :: rest else kv' :: assocSet rest k v

/-- Python dict lookup d.get(k) (case-sensitive). -/
def assocGet? : List (String × α) → String → Option α
  | [], _ => none
  | kv :: rest, k => if kv.1 == k then some kv.2 else assocGet? rest k

/-- Python dict membership k in d (case-sensitive). -/
def assocHas (l : List (String × α)) (k : String) : Bool :=
  l.any (fun kv => kv.1 == k)

/-- Python str() of a primitive value. -/
def primRender : Prim → String
  | .s v => v
  | .i n => toString n
  | .b true => "True"
  | .b false => "False"

/-- Python repr() of a primitive, used inside dict rendering. -/
def primPyRepr : Prim → String
  | .s v => "'" ++ v ++ "'"
  | .i n => toString n
  | .b true => "True"
  | .b false => "False"

/-- Python str() of a section dict (best-effort rendering, no escaping). -/
def tableRender (t : Table) : String :=
  "\x7b" ++ joinWith ", " (t.map (fun kv => "'" ++ kv.1 ++ "': " ++ primPyRepr kv.2)) ++ "\x7d"

/-- Python str() of a top-level entry, as ImagesetToml.get applies it. -/
def entryRender : Entry → String
  | .p v => primRender v
  | .tbl t => tableRender t

/-- ImagesetToml.get called with only a key: case-insensitive top-level
lookup, rendered through str(), empty string when missing. -/
def docGetTop (d : Doc) (key : String) : String :=
  match findCI d key with
  | some (_, e) => entryRender e
  | none => ""

/-- ImagesetToml.get called with section and key. -/
def docGetSec (d : Doc) (sec key : String) : String :=
  match findCI d sec with
  | none => ""
  | some (_, .p _) => ""
  | some (_, .tbl t) =>
    match findCI t key with
    | none => ""
    | some (_, v) => primRender v

/-- ImagesetToml.get called with only a section: the raw section value, or
an empty dict when the section is absent. -/
def docGetSection (d : Doc) (sec : String) : Entry :=
  match findCI d sec with
  | some (_, e) => e
  | none => .tbl []

/-- ImagesetToml.set scenario 3: top-level key and value. -/
def docSetTop (d : Doc) (key : String) (e : Entry) : Doc :=
  let target := match findCI d key with | some (k, _) => k | none => key
  assocSet d target e

/-- ImagesetToml.set scenario 2: section plus key with a str/int/bool
value. Fails (ValueError) when the section exists but is not a table. -/
def docSetSecKey (d : Doc) (sec key : String) (v : Prim) : Except Unit Doc :=
  let targetSec := match findCI d sec with | some (k, _) => k | none => sec
  let d1 := if assocHas d targetSec then d else assocSet d targetSec (.tbl [])
  match assocGet? d1 targetSec with
  | some (.tbl t) =>
    let targetKey := match findCI t key with | some (k, _) => k | none => key
    .ok (assocSet d1 targetSec (.tbl (assocSet t targetKey v)))
  | _ => .error ()

/-- ImagesetToml.set scenario 1: replace a whole section with a dict. -/
def docSetSection (d : Doc) (sec : String) (t : Table) : Doc :=
  let target := match findCI d sec with | some (k, _) => k | none => sec
  assocSet d target (.tbl t)

/-- Default sidecar contents created by ImagesetToml._validate_toml_file. -/
def defaultDoc (name : String) : Doc :=
  [("imageset", .p (.s name)), ("status", .p (.s "new")),
   ("edits", .p (.s "")), ("needs", .p (.s ""))]

/-- ImagesetToml._detect_source_from_sections. -/
def detectSource (d : Doc) : Option String :=
  if assocHas d "fooocus" then some "fooocus"
  else if assocHas d "midjourney" then some "midjourney"
  else none

/-- ImagesetToml._ensure_required_keys: backfill the missing defaults
(case-sensitive membership), default source to "unknown", then auto-detect
source from known sections when it is still "unknown". -/
def ensureRequiredKeys (d : Doc) (name : String) : Doc :=
  let d1 := (defaultDoc name).foldl
    (fun acc kv => if assocHas acc kv.1 then acc else assocSet acc kv.1 kv.2) d
  let d2 := if assocHas d1 "source" then d1 else assocSet d1 "source" (.p (.s "unknown"))
  match detectSource d2 with
  | some src =>
    if assocGet? d2 "source" == some (.p (.s "unknown")) then assocSet d2 "source" (.p (.s src))
    else d2
  | none => d2

/- Imageset model (core/imageset.py).

Filesystem paths are segment lists (os.path.join appends a segment,
os.path.dirname drops the last segment, os.path.normpath is the identity
because no relative components appear); the filesystem is the list of
existing directory paths. The ISState fields mirror the Imageset
attributes; doc is the sidecar contents, which every ImagesetToml.set
persists immediately. -/

/-- Configuration vocabularies read from config.toml (config.py). -/
structure Cfg where
  status : List String
  edits : List String
  needs : List String
  good_for : List String
  posted_to : List String
  fileTags : List String
  imgFileExt : List String
deriving Repr

/-- Python exception classes raised by the embedded operations. -/
inductive PyErr where
  | valueError
  | fileNotFound
  | fileExists
  | tomlDecode
deriving DecidableEq, Repr

/-- A filesystem path as a segment list. -/
abbrev Path := List String

/-- The set of existing directory paths. -/
abbrev Fs := List Path

/-- The path-relevant attributes of an Imageset object plus its sidecar. -/
structure ISState where
  folder_name : Path
  imageset_name : String
  imageset_folder : Path
  doc : Doc
deriving DecidableEq, Repr

/-- The comma-separated elements of a value as
Imageset._validate_comma_separated_values computes them: split on commas,
strip whitespace, drop empties. -/
def csvElems (v : String) : List String :=
  ((v.pySplit ",").map pyStrip).filter (fun s => s ≠ "")

/-- Imageset._validate_comma_separated_values as a Boolean test: true when
no ValueError is raised. An empty value passes; otherwise every element
must belong to the configured options. -/
def validateCSV (v : String) (valid : List String) : Bool :=
  if v = "" then true
  else (csvElems v).all (fun e => valid.contains e)

/-- os.rename on a directory: every existing path below the old folder is
re-rooted below the new folder. -/
def renameTree (fs : Fs) (old new : Path) : Fs :=
  fs.map (fun p => if seqLeads old p then new ++ p.drop old.length else p)

/-- Imageset.archive_imageset: create the _archive folder lazily, refuse an
existing target, move the imageset folder, rebind imageset_folder, and
reload the sidecar (which re-runs the required-key backfill). -/
def archiveImageset (st : ISState) (fs : Fs) : Option PyErr × ISState × Fs :=
  let archiveFolder := st.folder_name ++ ["_archive"]
  let fs1 := if fs.contains archiveFolder then fs else fs ++ [archiveFolder]
  let newPath := archiveFolder ++ [st.imageset_name]
  if fs1.contains newPath then (some .fileExists, st, fs1)
  else
    (none,
     { st with imageset_folder := newPath,
               doc := ensureRequiredKeys st.doc st.imageset_name },
     renameTree fs1 st.imageset_folder newPath)

/-- Imageset.status setter: validate against the configured status
vocabulary, persist, and archive when the new value is "archive". -/
def statusSet (cfg : Cfg) (st : ISState) (fs : Fs) (v : String) :
    Option PyErr × ISState × Fs :=
  if v ≠ "" ∧ ¬ cfg.status.contains v = true then (some .valueError, st, fs)
  else
    let st1 := { st with doc := docSetTop st.doc "status" (.p (.s v)) }
    if v = "archive" then archiveImageset st1 fs
    else (none, st1, fs)

/-- Imageset.edits setter: validate the comma-separated value, force status
to "edit" when setting a non-empty value while status differs, then
persist the edits value. -/
def editsSet (cfg : Cfg) (st : ISState) (fs : Fs) (v : String) :
    Option PyErr × ISState × Fs :=
  if ¬ validateCSV v cfg.edits = true then (some .valueError, st, fs)
  else if v ≠ "" ∧ pyStrip v ≠ "" ∧ docGetTop st.doc "status" ≠ "edit" then
    match statusSet cfg st fs "edit" with
    | (some e, st1, fs1) => (some e, st1, fs1)
    | (none, st1, fs1) =>
      (none, { st1 with doc := docSetTop st1.doc "edits" (.p (.s v)) }, fs1)
  else (none, { st with doc := docSetTop st.doc "edits" (.p (.s v)) }, fs)

/-- Imageset.needs setter. -/
def needsSet (cfg : Cfg) (st : ISState) (fs : Fs) (v : String) :
    Option PyErr × ISState × Fs :=
  if ¬ validateCSV v cfg.needs = true then (some .valueError, st, fs)
  else (none, { st with doc := docSetTop st.doc "needs" (.p (.s v)) }, fs)

/-- Imageset.good_for setter. -/
def goodForSet (cfg : Cfg) (st : ISState) (fs : Fs) (v : String) :
    Option PyErr × ISState × Fs :=
  if ¬ validateCSV v cfg.good_for = true then (some .valueError, st, fs)
  else (none, { st with doc := docSetTop st.doc "good_for" (.p (.s v)) }, fs)

/-- Imageset.posted_to setter: validated, stored under the biz section. -/
def postedToSet (cfg : Cfg) (st : ISState) (fs : Fs) (v : String) :
    Option PyErr × ISState × Fs :=
  if ¬ validateCSV v cfg.posted_to = true then (some .valueError, st, fs)
  else
    match docSetSecKey st.doc "biz" "posted_to" (.s v) with
    | .ok d1 => (none, { st with doc := d1 }, fs)
    | .error _ => (some .valueError, st, fs)

/-- The sidecar file found in an imageset folder: absent, valid TOML, or
bytes that decode as UTF-8 but fail TOML parsing. -/
inductive SidecarFile where
  | absent
  | valid (d : Doc)
  | badToml
deriving Repr

/-- ImagesetToml._validate_toml_file: create defaults when absent, load and
backfill when valid. A TOMLDecodeError (valid UTF-8, invalid TOML) is not
caught by the UnicodeDecodeError recovery branch and propagates. -/
def loadSidecar (sc : SidecarFile) (name : String) : Except PyErr Doc :=
  match sc with
  | .absent => .ok (defaultDoc name)
  | .valid d => .ok (ensureRequiredKeys d name)
  | .badToml => .error .tomlDecode

/-- Imageset._ensure_archive_location: when the loaded status is "archive"
and the folder's parent is not the _archive folder, relocate the imageset
folder under _archive (refusing an existing target). -/
def ensureArchiveLocation (st : ISState) (fs : Fs) :
    Except (PyErr × Fs) (ISState × Fs) :=
  if docGetTop st.doc "status" ≠ "archive" then .ok (st, fs)
  else
    let archiveFolder := st.folder_name ++ ["_archive"]
    let currentParent := st.imageset_folder.dropLast
    if currentParent = archiveFolder then .ok (st, fs)
    else
      let fs1 := if fs.contains archiveFolder then fs else fs ++ [archiveFolder]
      let target := archiveFolder ++ [st.imageset_name]
      if fs1.contains target then .error (.fileExists, fs1)
      else
        .ok ({ st with imageset_folder := target,
                       doc := ensureRequiredKeys st.doc st.imageset_name },
             renameTree fs1 st.imageset_folder target)

/-- The location-determining part of Imageset.__init__: existence checks of
_get_imageset_folder, sidecar loading via ImagesetToml, and
_ensure_archive_location. The remaining constructor steps (file listing,
EXIF extraction, orig-image resolution) never write imageset_folder or the
status key. -/
def mkImagesetLoc (folder : Path) (name : String) (sc : SidecarFile) (fs : Fs) :
    Except (PyErr × Fs) (ISState × Fs) :=
  if ¬ fs.contains folder = true then .error (.fileNotFound, fs)
  else if ¬ fs.contains (folder ++ [name]) = true then .error (.fileNotFound, fs)
  else
    match loadSidecar sc name with
    | .error e => .error (e, fs)
    | .ok d => ensureArchiveLocation ⟨folder, name, folder ++ [name], d⟩ fs

/- Folder scanner model (core/folder.py, ImagesetFolder.folder_scan).

The top-level folder holds loose files and imageset subfolders; loose-file
routing (lines 174-213) moves files by substring match via
file_utils.move_files, and the subfolder pass (lines 219-234) constructs
Imageset objects, skipping archive-status imagesets. -/

/-- The contents of the scanned top-level folder: all loose files and all
subfolders with their files. -/
structure TopFolder where
  loose : List String
  subs : List (String × List String)
deriving DecidableEq, Repr

/-- The folder_scan listing skip rule: names starting with "_" or "index."
are not iterated (they can still be touched by move_files, which re-lists
the directory itself). -/
def notSkipped (n : String) : Bool :=
  !(n.pyStarts "_") && !(n.pyStarts "index.")

/-- Append moved files to the destination subfolder, creating it if needed
(file_utils.move_files calls create_folder on the destination first). -/
def assocAppend (l : List (String × List String)) (k : String) (items : List String) :
    List (String × List String) :=
  if l.any (fun kv => kv.1 == k) then
    l.map (fun kv => if kv.1 == k then (kv.1, kv.2 ++ items) else kv)
  else l ++ [(k, items)]

/-- Embedding of file_utils.move_files from the top-level folder into the
subfolder named by the pattern: every top-level file whose name contains
the pattern as a substring is moved (directories are skipped). -/
def move_files (pattern : String) (tf : TopFolder) : TopFolder × List String :=
  let moved := tf.loose.filter (fun f => strContainsSub f pattern)
  ({ loose := tf.loose.filter (fun f => ! strContainsSub f pattern),
     subs := assocAppend tf.subs pattern moved }, moved)

/-- One iteration of the loose-file loop of folder_scan (lines 179-213):
skip vanished files and non-image files; derive the imageset name; create
its subfolder when missing (also appending it to the scanned subfolder
name list); move every matching top-level file into it. -/
def looseStep (file_tags : List String) (s : TopFolder × List String) (f : String) :
    TopFolder × List String :=
  if ¬ s.1.loose.contains f = true then s
  else if ¬ is_image_file f = true then s
  else
    let iname := (get_imageset_from_filename f file_tags).1
    let already := s.1.subs.any (fun kv => kv.1 == iname)
    let tf1 := if already then s.1 else { s.1 with subs := s.1.subs ++ [(iname, [])] }
    let names1 := if already then s.2 else s.2 ++ [iname]
    ((move_files iname tf1).1, names1)

/-- The loose-file routing pass of folder_scan: iterate over the snapshot
of non-skipped loose files, threading the folder state; returns the final
folder state and the subfolder name list handed to the subfolder pass. -/
def loosePhase (file_tags : List String) (tf : TopFolder) : TopFolder × List String :=
  let snapshot := tf.loose.filter notSkipped
  let names0 := (tf.subs.map (fun kv => kv.1)).filter notSkipped
  snapshot.foldl (looseStep file_tags) (tf, names0)

/-- The subfolder pass of folder_scan (lines 221-234): construct each
surviving subfolder's Imageset in order, inserting non-archive imagesets
into the map. An exception while constructing one Imageset (e.g. a corrupt
sidecar) escapes to the outer handler, which logs and returns False with
the map as built so far; the remaining subfolders are not processed. -/
def processGo (folder : Path) (sc : String → SidecarFile) :
    Fs → List (String × ISState) → List String → List (String × ISState) × Bool × Fs
  | fs, acc, [] => (acc, true, fs)
  | fs, acc, n :: rest =>
    match mkImagesetLoc folder n (sc n) fs with
    | .error (_, fs1) => (acc, false, fs1)
    | .ok (is, fs1) =>
      processGo folder sc fs1
        (if docGetTop is.doc "status" ≠ "archive" then acc ++ [(n, is)] else acc) rest

/-- folder_scan's subfolder pass started with the empty imageset map. -/
def processSubfolders (folder : Path) (sc : String → SidecarFile) (fs : Fs)
    (names : List String) : List (String × ISState) × Bool × Fs :=
  processGo folder sc fs [] names

/- Original-image resolution (core/imageset.py, Imageset.orig_image and
Imageset.add_tag_to_file), over the imageset folder's file-name listing. -/

/-- The image-extension test of Imageset.orig_image / cover_image: the
file's extension, lowercased and with leading dots stripped, must appear
among the lowercased configured image extensions. -/
def isImageName (cfg : Cfg) (fname : String) : Bool :=
  (cfg.imgFileExt.map (fun e => e.pyLower)).contains (lstripDot ((pySplitext fname).2.pyLower))

/-- The tag list of a file as Imageset._get_imageset_files computes it:
configured tags whose "_tag_"/"_tag." pattern occurs in the file name, in
vocabulary order. -/
def tagsOfName (cfg : Cfg) (fname : String) : List String :=
  cfg.fileTags.filter (fun t => hasTagPattern t fname)

/-- Imageset.add_tag_to_file: validate the tag, require the file to exist
and not already carry the tag, build stem_tag.ext, refuse an existing
target, and rename (the files dict is re-listed afterwards). -/
def add_tag_to_file (cfg : Cfg) (files : List String) (filename tag : String) :
    Except PyErr (String × List String) :=
  if ¬ cfg.fileTags.contains tag = true then .error .valueError
  else if ¬ files.contains filename = true then .error .fileNotFound
  else if hasTagPattern tag filename then .error .valueError
  else
    let pe := pySplitext filename
    let newName := pe.1 ++ "_" ++ tag ++ pe.2
    if files.contains newName then .error .fileExists
    else .ok (newName, files.map (fun f => if f == filename then newName else f))

/-- Imageset.orig_image: resolve the original image over the imageset
folder's file listing, possibly auto-tagging by rename; returns the
resolved full path and the resulting listing. -/
def orig_image (cfg : Cfg) (folder : Path) (files : List String) :
    Except PyErr (Path × List String) :=
  match files.filter (fun f => isImageName cfg f) with
  | [] => .error .fileNotFound
  | f0 :: rest =>
    match (f0 :: rest).filter (fun f => (tagsOfName cfg f).contains "orig") with
    | [g] => .ok (folder ++ [g], files)
    | g :: g2 :: more =>
      match (g :: g2 :: more).filter (fun f => tagsOfName cfg f == (["orig"] : List String)) with
      | [h] => .ok (folder ++ [h], files)
      | _ => .ok (folder ++ [g], files)
    | [] =>
      match rest with
      | [] =>
        match add_tag_to_file cfg files f0 "orig" with
        | .ok r => .ok (folder ++ [r.1], r.2)
        | .error e => .error e
      | _ :: _ =>
        match (f0 :: rest).filter (fun f => tagsOfName cfg f == ([] : List String)) with
        | [u] =>
          match add_tag_to_file cfg files u "orig" with
          | .ok r => .ok (folder ++ [r.1], r.2)
          | .error e => .error e
        | _ => .ok (folder ++ [f0], files)

/- Database sync model (db/sync.py sync_imageset_toml_to_db together with the
table classes in db/folders.py, db/imagesets.py, db/imageset_sections.py,
db/imagesetfiles.py and db/imagesetfile_tags.py).

The SQLite database is embedded as lists of rows in insertion order plus one
AUTOINCREMENT counter per mutated table. The raw parsed-TOML dict values flow
into imageset columns unchanged by sync_imageset_toml_to_db, so those row
fields hold Entry/Prim values. ORDER BY on a text column is insertion sort
with a character-wise comparison. The interviews table is not modelled:
_sync_interview_files reads imagesetfiles and writes only interviews rows. -/

structure FolderRow where
  id : Nat
  name : String
  path : String
deriving DecidableEq, Repr

structure ImagesetRow where
  id : Nat
  folder_id : Nat
  name : String
  folder_path : String
  imageset_folder_path : String
  status : Entry
  edits : Entry
  needs : Entry
  good_for : Prim
  source : Entry
  prompt : Prim
  cover_image_path : Option String
  orig_image_path : Option String
deriving DecidableEq, Repr

structure SectionRow where
  id : Nat
  imageset_id : Nat
  section_name : String
  section_data : Table
deriving DecidableEq, Repr

structure FileRow where
  id : Nat
  imageset_id : Nat
  filename : String
  fullpath : String
  extension : String
  file_type : String
deriving DecidableEq, Repr

structure TagRow where
  id : Nat
  imagesetfile_id : Nat
  tag : String
deriving DecidableEq, Repr

structure Db where
  folders : List FolderRow
  imagesets : List ImagesetRow
  sections : List SectionRow
  files : List FileRow
  tags : List TagRow
  nextImagesetId : Nat
  nextSectionId : Nat
  nextFileId : Nat
  nextTagId : Nat
deriving DecidableEq, Repr

/-- Character-wise list comparison backing ORDER BY on a text column. -/
def charListLe : List Char → List Char → Bool
  | [], _ => true
  | _ :: _, [] => false
  | a :: as, b :: bs => if a = b then charListLe as bs else decide (a < b)

/-- String comparison for ORDER BY. -/
def strLeB (a b : String) : Bool := charListLe a.data b.data

/-- Insert into a sorted list (helper of insSort). -/
def insSorted {α : Type} (le : α → α → Bool) (x : α) : List α → List α
  | [] => [x]
  | y :: ys => if le x y then x :: y :: ys else y :: insSorted le x ys

/-- Stable insertion sort modelling ORDER BY. -/
def insSort {α : Type} (le : α → α → Bool) : List α → List α
  | [] => []
  | x :: xs => insSorted le x (insSort le xs)

/-- FoldersTable lookup as used by sync_imageset_toml_to_db lines 134-145:
by basename first, then by full path. -/
def foldersLookup (folders : List FolderRow) (folder_path : String) :
    Option FolderRow :=
  match folders.find? (fun r => r.name == pyBasename folder_path) with
  | some r => some r
  | none => folders.find? (fun r => r.path == folder_path)

/-- ImagesetsTable.get_by_folder_path_and_name: first row matching both. -/
def imagesetsFindIn (l : List ImagesetRow) (fp nm : String) :
    Option ImagesetRow :=
  l.find? (fun r => r.folder_path == fp && r.name == nm)

/-- Raw dict get with a "" default (sync.py lines 152-155). -/
def rawGet (doc : Doc) (k : String) : Entry :=
  (assocGet? doc k).getD (.p (.s ""))

/-- Python truthiness of a raw TOML value. -/
def entryTruthy : Entry → Bool
  | .p (.s v) => !(v == "")
  | .p (.i n) => !(n == 0)
  | .p (.b b) => b
  | .tbl t => !t.isEmpty

/-- The string usable as a dict key; dict keys are strings, so a non-string
source value can never satisfy the containment test. -/
def entryKey? : Entry → Option String
  | .p (.s v) => some v
  | _ => none

/-- Prompt extraction (sync.py lines 157-162): only when source is truthy,
present as a key and its value is a dict. -/
def extractPrompt (doc : Doc) (source : Entry) : Prim :=
  match entryKey? source with
  | some sv =>
    if entryTruthy source && assocHas doc sv then
      match assocGet? doc sv with
      | some (.tbl t) => (assocGet? t "prompt").getD (.s "")
      | _ => .s ""
    else .s ""
  | none => .s ""

/-- good_for and posted_to from the biz section (sync.py lines 164-170);
posted_to is computed but never stored by this function. -/
def extractBiz (doc : Doc) : Prim × Prim :=
  match (assocGet? doc "biz").getD (.tbl []) with
  | .tbl t => ((assocGet? t "good_for").getD (.s ""),
               (assocGet? t "posted_to").getD (.s ""))
  | _ => (.s "", .s "")

/-- ImagesetsTable.update with the six always-present fields of sync.py
lines 177-185 (SQL UPDATE ... WHERE id = ?). -/
def updateImagesetFields (db : Db) (iid : Nat)
    (status edits needs source : Entry) (good_for prompt : Prim) : Db :=
  { db with imagesets := db.imagesets.map (fun r =>
      if r.id == iid then
        { r with status := status, edits := edits, needs := needs,
                 good_for := good_for, source := source, prompt := prompt }
      else r) }

/-- ImagesetsTable.create (sync.py lines 189-200): INSERT with the next
AUTOINCREMENT id, cover and orig image paths NULL. -/
def createImageset (db : Db) (folder_id : Nat) (nm fp ifp : String)
    (status edits needs source : Entry) (good_for prompt : Prim) : Nat × Db :=
  (db.nextImagesetId,
   { db with
       imagesets := db.imagesets ++
         [⟨db.nextImagesetId, folder_id, nm, fp, ifp, status, edits, needs,
           good_for, source, prompt, none, none⟩],
       nextImagesetId := db.nextImagesetId + 1 })

/-- Imageset upsert phase of sync_imageset_toml_to_db (lines 147-200),
field extraction included. -/
def syncUpsert (env_fp env_nm : String) (doc : Doc) (db : Db)
    (folder_id : Nat) : Nat × Db :=
  let status := rawGet doc "status"
  let edits := rawGet doc "edits"
  let needs := rawGet doc "needs"
  let source := rawGet doc "source"
  let prompt := extractPrompt doc source
  let good_for := (extractBiz doc).1
  let ifp := env_fp ++ "/" ++ env_nm
  match imagesetsFindIn db.imagesets env_fp env_nm with
  | some r => (r.id, updateImagesetFields db r.id status edits needs source good_for prompt)
  | none => createImageset db folder_id env_nm env_fp ifp status edits needs source good_for prompt

/-- The reserved top-level keys skipped by the section loop (sync.py 209). -/
def topLevelKeys : List String := ["imageset", "status", "edits", "needs", "source"]

/-- ImagesetSectionsTable.update: SQL UPDATE of every matching row when a
SELECT finds one, INSERT with the next id otherwise. -/
def sectionsUpsert (db : Db) (iid : Nat) (nm : String) (t : Table) : Db :=
  if db.sections.any (fun s => s.imageset_id == iid && s.section_name == nm) then
    { db with sections := db.sections.map (fun s =>
        if s.imageset_id == iid && s.section_name == nm then
          { s with section_data := t }
        else s) }
  else
    { db with sections := db.sections ++ [⟨db.nextSectionId, iid, nm, t⟩],
              nextSectionId := db.nextSectionId + 1 }

/-- Section sync loop (sync.py lines 211-216): reserved keys skipped,
non-dict values skipped. -/
def syncSectionsLoop (iid : Nat) : List (String × Entry) → Db → Db
  | [], db => db
  | p :: rest, db =>
    syncSectionsLoop iid rest
      (if topLevelKeys.contains p.1 then db
       else match p.2 with
         | .tbl t => sectionsUpsert db iid p.1 t
         | .p _ => db)

/-- File type detection (imagesetfiles.py lines 348-360). -/
def fileTypeOf (imgExt : List String) (nm : String) : String :=
  let ext := (pySplitext nm).2
  let extLower := lstripDot ext.pyLower
  if ext == ".toml" then "toml"
  else if ext == ".txt" then "text"
  else if strContainsSub nm "interview" then "interview"
  else if imgExt.contains extLower then "image"
  else "other"

/-- The rows of one imageset as get_by_imageset_id returns them, ORDER BY
filename. -/
def filesOf (files : List FileRow) (iid : Nat) : List FileRow :=
  insSort (fun a b => strLeB a.filename b.filename)
    (files.filter (fun r => r.imageset_id == iid))

/-- Python dict assignment for the existing_files comprehension: replace the
binding in place when the key exists, append otherwise. -/
def dictInsert {α : Type} (m : List (String × α)) (k : String) (v : α) :
    List (String × α) :=
  if m.any (fun p => p.1 == k) then
    m.map (fun p => if p.1 == k then (k, v) else p)
  else m ++ [(k, v)]

/-- The existing_files dict of sync_from_filesystem line 334. -/
def filesDict (l : List FileRow) : List (String × FileRow) :=
  l.foldl (fun m f => dictInsert m f.filename f) []

/-- ImagesetFilesTable.create: INSERT with the next AUTOINCREMENT id. -/
def createFile (db : Db) (iid : Nat) (nm fp extn ft : String) : Db :=
  { db with files := db.files ++ [⟨db.nextFileId, iid, nm, fp, extn, ft⟩],
            nextFileId := db.nextFileId + 1 }

/-- ImagesetFilesTable.update of fullpath and file_type (SQL UPDATE ...
WHERE id = ?). -/
def updateFileRow (db : Db) (fid : Nat) (fp ft : String) : Db :=
  { db with files := db.files.map (fun q =>
      if q.id == fid then { q with fullpath := fp, file_type := ft } else q) }

/-- One iteration of the listing loop of sync_from_filesystem (lines
339-380): lookup in the existing_files snapshot, update on fullpath
mismatch, create otherwise. -/
def fileStep (iid : Nat) (ifp : String) (imgExt : List String)
    (dict : List (String × FileRow)) (nm : String) (db : Db) : Db :=
  let fp := ifp ++ "/" ++ nm
  let ft := fileTypeOf imgExt nm
  match dict.find? (fun p => p.1 == nm) with
  | some p => if p.2.fullpath == fp then db else updateFileRow db p.2.id fp ft
  | none => createFile db iid nm fp (pySplitext nm).2 ft

/-- The listing loop of sync_from_filesystem. -/
def syncFilesLoop (iid : Nat) (ifp : String) (imgExt : List String)
    (dict : List (String × FileRow)) : List String → Db → Db
  | [], db => db
  | nm :: rest, db =>
    syncFilesLoop iid ifp imgExt dict rest (fileStep iid ifp imgExt dict nm db)

/-- ImagesetFilesTable.delete plus the ON DELETE CASCADE of
imagesetfile_tags (PRAGMA foreign_keys = ON in db/utils.py). -/
def deleteFileCascade (db : Db) (fid : Nat) : Db :=
  { db with files := db.files.filter (fun r => !(r.id == fid)),
            tags := db.tags.filter (fun t => !(t.imagesetfile_id == fid)) }

/-- One iteration of the deletion loop of sync_from_filesystem (lines
382-385); files_found is the whole listing. -/
def deleteStep (found : List String) (p : String × FileRow) (db : Db) : Db :=
  if found.contains p.1 then db else deleteFileCascade db p.2.id

/-- The deletion loop of sync_from_filesystem over the existing_files
snapshot. -/
def deleteMissingLoop (found : List String) :
    List (String × FileRow) → Db → Db
  | [], db => db
  | p :: rest, db => deleteMissingLoop found rest (deleteStep found p db)

/-- ImagesetFilesTable.sync_from_filesystem (lines 311-392). -/
def syncFromFilesystem (db : Db) (iid : Nat) (ifp : String)
    (imgExt : List String) (listing : List String) (folderExists : Bool) : Db :=
  if !folderExists then db
  else
    let dict := filesDict (filesOf db.files iid)
    deleteMissingLoop listing dict (syncFilesLoop iid ifp imgExt dict listing db)

/-- Filename tag extraction of sync.py lines 230-235. -/
def computeTags (fileTags : List String) (nm : String) : List String :=
  fileTags.filter (fun tag =>
    strContainsSub nm ("_" ++ tag ++ "_") || strContainsSub nm ("_" ++ tag ++ "."))

/-- ImagesetFileTagsTable INSERT with the next AUTOINCREMENT id. -/
def insertTag (db : Db) (fid : Nat) (tg : String) : Db :=
  { db with tags := db.tags ++ [⟨db.nextTagId, fid, tg⟩],
            nextTagId := db.nextTagId + 1 }

/-- ImagesetFileTagsTable.set_tags_for_file: delete all tags of the file,
then insert the given ones. -/
def setTagsForFile (db : Db) (fid : Nat) (tags : List String) : Db :=
  tags.foldl (fun d tg => insertTag d fid tg)
    { db with tags := db.tags.filter (fun t => !(t.imagesetfile_id == fid)) }

/-- One iteration of the tag sync loop of sync.py lines 226-238; files
with no recognized tag are skipped. -/
def tagStep (fileTags : List String) (f : FileRow) (db : Db) : Db :=
  let tags := computeTags fileTags f.filename
  if tags.isEmpty then db else setTagsForFile db f.id tags

/-- The tag sync loop over the files snapshot. -/
def tagsLoop (fileTags : List String) : List FileRow → Db → Db
  | [], db => db
  | f :: rest, db => tagsLoop fileTags rest (tagStep fileTags f db)

/-- ImagesetFileTagsTable.get_tags_by_file_id, ORDER BY tag. -/
def getTagsByFileId (tags : List TagRow) (fid : Nat) : List String :=
  insSort strLeB ((tags.filter (fun t => t.imagesetfile_id == fid)).map (fun t => t.tag))

/-- Partition of the image files into thumb, orig and other fullpath lists
(sync.py lines 250-264), in file order. -/
def partImgs (tags : List TagRow) : List FileRow → List String × List String × List String
  | [] => ([], [], [])
  | f :: rest =>
    let acc := partImgs tags rest
    let tg := getTagsByFileId tags f.id
    if tg.contains "thumb" then (f.fullpath :: acc.1, acc.2.1, acc.2.2)
    else if tg.contains "orig" then (acc.1, f.fullpath :: acc.2.1, acc.2.2)
    else (acc.1, acc.2.1, f.fullpath :: acc.2.2)

/-- Cover and orig image path selection (sync.py lines 240-272):
thumb first, then orig, then any image; orig path is the first orig file. -/
def coverOrigOf (tags : List TagRow) (snapshot : List FileRow) :
    Option String × Option String :=
  let imgs := snapshot.filter (fun f => f.file_type == "image")
  let acc := partImgs tags imgs
  let cover : Option String :=
    match acc.1 with
    | c :: _ => some c
    | [] =>
      match acc.2.1 with
      | c :: _ => some c
      | [] =>
        match acc.2.2 with
        | c :: _ => some c
        | [] => none
  (cover, acc.2.1.head?)

/-- The conditional image-path update (sync.py lines 274-280);
ImagesetsTable.update skips fields passed as None. -/
def updateCoverOrig (db : Db) (iid : Nat) (co : Option String × Option String) : Db :=
  if co.1.isSome || co.2.isSome then
    { db with imagesets := db.imagesets.map (fun r =>
        if r.id == iid then
          { r with cover_image_path := if co.1.isSome then co.1 else r.cover_image_path,
                   orig_image_path := if co.2.isSome then co.2 else r.orig_image_path }
        else r) }
  else db

/-- Environment of one sync run: the folder addressed, the parsed sidecar,
the imageset folder listing (regular files only) and the config values. -/
structure SyncEnv where
  folder_path : String
  imageset_name : String
  folderExists : Bool
  doc : Doc
  listing : List String
  fileTags : List String
  imgFileExt : List String

/-- Phases of sync_imageset_toml_to_db after the imageset upsert: section
sync, file sync, tag sync, cover and orig image update (lines 205-284). -/
def syncPhases (env : SyncEnv) (db1 : Db) (iid : Nat) : Db :=
  let ifp := env.folder_path ++ "/" ++ env.imageset_name
  let db2 := syncSectionsLoop iid env.doc db1
  let db3 := syncFromFilesystem db2 iid ifp env.imgFileExt env.listing env.folderExists
  let snapshot := filesOf db3.files iid
  let db4 := tagsLoop env.fileTags snapshot db3
  updateCoverOrig db4 iid (coverOrigOf db4.tags snapshot)

/-- sync_imageset_toml_to_db (sync.py lines 110-291): returns the imageset
id on success together with the resulting database. -/
def syncImagesetTomlToDb (env : SyncEnv) (db : Db) : Option Nat × Db :=
  if !env.folderExists then (none, db)
  else
    match foldersLookup db.folders env.folder_path with
    | none => (none, db)
    | some frec =>
      let p := syncUpsert env.folder_path env.imageset_name env.doc db frec.id
      if p.1 == 0 then (none, p.2)
      else (some p.1, syncPhases env p.2 p.1)

/-- Row count of one file's tags (SELECT COUNT equivalent used to reason
about imagesetfile_tags). -/
def tagCount (tags : List TagRow) (fid : Nat) : Nat :=
  (tags.filter (fun t => t.imagesetfile_id == fid)).length

/-- Schema facts guaranteed by db/utils.py for the tables this sync writes:
AUTOINCREMENT ids are fresh and pairwise distinct, and
UNIQUE(imageset_id, filename) makes the filename determine the file row
within one imageset. -/
def DbWF (db : Db) : Prop :=
  (db.files.map (fun q => q.id)).Nodup ∧
  (∀ q ∈ db.files, q.id < db.nextFileId) ∧
  (∀ q ∈ db.files, ∀ q2 ∈ db.files,
    q.imageset_id = q2.imageset_id → q.filename = q2.filename → q.id = q2.id)


/- Association-list lemmas supporting the get/set round-trip proofs. -/

theorem findCI_matches {α : Type} {l : List (String × α)} {key t : String} {e : α}
    (h : findCI l key = some (t, e)) : t.pyLower = key.pyLower := by
  have hp := List.find?_some h
  exact eq_of_beq hp

theorem mem_of_findCI {α : Type} {l : List (String × α)} {key t : String} {e : α}
    (h : findCI l key = some (t, e)) : (t, e) ∈ l :=
  List.mem_of_find?_eq_some h

theorem assocHas_of_mem {α : Type} {l : List (String × α)} {kv : String × α} (h : kv ∈ l) :
    assocHas l kv.1 = true := by
  unfold assocHas
  rw [List.any_eq_true]
  exact ⟨kv, h, by simp⟩

theorem findCI_cons {α : Type} {kv : String × α} {l : List (String × α)} {key : String} :
    findCI (kv :: l) key =
      if (kv.1.pyLower == key.pyLower) = true then some kv else findCI l key := by
  by_cases hb : (kv.1.pyLower == key.pyLower) = true
  · rw [if_pos hb]
    exact List.find?_cons_of_pos _ hb
  · rw [if_neg hb]
    exact List.find?_cons_of_neg _ (by simpa using hb)

theorem findCI_none_not_has {α : Type} {l : List (String × α)} {key : String}
    (h : findCI l key = none) : assocHas l key = false := by
  rw [Bool.eq_false_iff]
  intro hany
  unfold assocHas at hany
  rw [List.any_eq_true] at hany
  obtain ⟨kv, hm, hkv⟩ := hany
  have heq : kv.1 = key := eq_of_beq hkv
  have hno := List.find?_eq_none.mp h kv hm
  apply hno
  show (kv.1.pyLower == key.pyLower) = true
  rw [heq]
  exact beq_self_eq_true _

theorem assocSet_noExact {α : Type} {l : List (String × α)} {k : String} {v : α}
    (h : ∀ kv ∈ l, kv.1 ≠ k) : assocSet l k v = l ++ [(k, v)] := by
  induction l with
  | nil => rfl
  | cons kv rest ih =>
    have hne : (kv.1 == k) = false := by
      rw [Bool.eq_false_iff]
      intro hb
      exact h kv (List.mem_cons_self _ _) (eq_of_beq hb)
    rw [assocSet, if_neg (by simp [hne]), ih (fun kv' hm => h kv' (List.mem_cons_of_mem _ hm))]
    rfl

theorem assocSet_of_findCI_none {α : Type} {l : List (String × α)} {key : String} {v : α}
    (h : findCI l key = none) : assocSet l key v = l ++ [(key, v)] := by
  apply assocSet_noExact
  intro kv hm hk
  have hno := List.find?_eq_none.mp h kv hm
  apply hno
  show (kv.1.pyLower == key.pyLower) = true
  rw [hk]
  exact beq_self_eq_true _

theorem findCI_append_self {α : Type} {l : List (String × α)} {key : String} {v : α}
    (h : findCI l key = none) : findCI (l ++ [(key, v)]) key = some (key, v) := by
  induction l with
  | nil =>
    rw [List.nil_append, findCI_cons]
    simp
  | cons kv rest ih =>
    have hb : ¬ (kv.1.pyLower == key.pyLower) = true :=
      List.find?_eq_none.mp h kv (List.mem_cons_self _ _)
    have hrest : findCI rest key = none := by
      apply List.find?_eq_none.mpr
      intro a ha
      exact List.find?_eq_none.mp h a (List.mem_cons_of_mem _ ha)
    rw [List.cons_append, findCI_cons, if_neg hb]
    exact ih hrest

theorem findCI_assocSet_self {α : Type} {l : List (String × α)} {key t : String} {e : α} {x : α}
    (h : findCI l key = some (t, e)) : findCI (assocSet l t x) key = some (t, x) := by
  induction l with
  | nil => simp [findCI] at h
  | cons kv rest ih =>
    by_cases hb : (kv.1.pyLower == key.pyLower) = true
    · rw [findCI_cons, if_pos hb] at h
      have ht : kv.1 = t := by
        have := congrArg (fun o => Option.map Prod.fst o) h
        simpa using this
      rw [assocSet, if_pos (by rw [ht]; exact beq_self_eq_true _)]
      rw [findCI_cons]
      have hb' : (t.pyLower == key.pyLower) = true := by rw [← ht]; exact hb
      rw [if_pos hb']
    · rw [findCI_cons, if_neg hb] at h
      have htl : t.pyLower = key.pyLower := findCI_matches h
      have hne : (kv.1 == t) = false := by
        rw [Bool.eq_false_iff]
        intro hbe
        apply hb
        have hkt : kv.1 = t := eq_of_beq hbe
        rw [hkt, htl]
        exact beq_self_eq_true _
      rw [assocSet, if_neg (by simp [hne])]
      rw [findCI_cons, if_neg hb]
      exact ih h

theorem findCI_assocSet_of_ne {α : Type} {l : List (String × α)} {key t : String} {x : α}
    (hne : (t.pyLower == key.pyLower) = false) :
    findCI (assocSet l t x) key = findCI l key := by
  induction l with
  | nil =>
    show findCI [(t, x)] key = findCI [] key
    rw [findCI_cons]
    simp [hne, findCI]
  | cons kv rest ih =>
    by_cases hkt : (kv.1 == t) = true
    · have hkeq : kv.1 = t := eq_of_beq hkt
      rw [assocSet, if_pos hkt]
      rw [findCI_cons, findCI_cons]
      have h1 : ((t.pyLower == key.pyLower) = true) = False := by simp [hne]
      have h2 : ((kv.1.pyLower == key.pyLower) = true) = False := by
        rw [hkeq]; exact h1
      rw [if_neg (by rw [h1]; exact id), if_neg (by rw [h2]; exact id)]
    · rw [assocSet, if_neg (by simpa using hkt)]
      rw [findCI_cons, findCI_cons]
      by_cases hb : (kv.1.pyLower == key.pyLower) = true
      · rw [if_pos hb, if_pos hb]
      · rw [if_neg hb, if_neg hb]
        exact ih

theorem assocGet?_of_findCI {α : Type} {l : List (String × α)} {key t : String} {e : α}
    (h : findCI l key = some (t, e)) : assocGet? l t = some e := by
  induction l with
  | nil => simp [findCI] at h
  | cons kv rest ih =>
    by_cases hb : (kv.1.pyLower == key.pyLower) = true
    · rw [findCI_cons, if_pos hb] at h
      have hkv : kv = (t, e) := by injection h
      rw [hkv, assocGet?, if_pos (beq_self_eq_true _)]
    · rw [findCI_cons, if_neg hb] at h
      have htl : t.pyLower = key.pyLower := findCI_matches h
      have hne : ¬ (kv.1 == t) = true := by
        intro hbe
        apply hb
        have hkt : kv.1 = t := eq_of_beq hbe
        rw [hkt, htl]
        exact beq_self_eq_true _
      rw [assocGet?, if_neg hne]
      exact ih h

/-- Round-trip: setting a top-level key then reading it back (same casing)
yields the str() rendering of the stored entry. -/
theorem docGetTop_docSetTop_same (d : Doc) (k : String) (e : Entry) :
    docGetTop (docSetTop d k e) k = entryRender e := by
  unfold docSetTop
  cases hf : findCI d k with
  | some pr =>
    obtain ⟨t, e0⟩ := pr
    simp only [hf]
    rw [docGetTop, findCI_assocSet_self hf]
  | none =>
    simp only [hf]
    rw [docGetTop, assocSet_of_findCI_none hf, findCI_append_self hf]

/-- Frame rule: setting one top-level key leaves case-insensitively
distinct keys unchanged. -/
theorem docGetTop_docSetTop_other {d : Doc} {k k' : String} {e : Entry}
    (hne : k'.pyLower ≠ k.pyLower) :
    docGetTop (docSetTop d k' e) k = docGetTop d k := by
  unfold docSetTop docGetTop
  cases hf : findCI d k' with
  | some pr =>
    obtain ⟨t, e0⟩ := pr
    simp only [hf]
    have ht : t.pyLower = k'.pyLower := findCI_matches hf
    rw [findCI_assocSet_of_ne (by rw [Bool.eq_false_iff]; intro hb; exact hne (by rw [← ht]; exact eq_of_beq hb))]
  | none =>
    simp only [hf]
    rw [findCI_assocSet_of_ne (by rw [Bool.eq_false_iff]; intro hb; exact hne (eq_of_beq hb))]

theorem findCI_congr {α : Type} {l : List (String × α)} {key key' : String}
    (h : key'.pyLower = key.pyLower) : findCI l key' = findCI l key := by
  unfold findCI
  rw [h]

theorem assocGet?_append_self {α : Type} {l : List (String × α)} {k : String} {x : α}
    (h : findCI l k = none) : assocGet? (l ++ [(k, x)]) k = some x := by
  induction l with
  | nil => simp [assocGet?]
  | cons kv rest ih =>
    have hb : ¬ (kv.1.pyLower == k.pyLower) = true :=
      List.find?_eq_none.mp h kv (List.mem_cons_self _ _)
    have hne : ¬ (kv.1 == k) = true := by
      intro hbe
      apply hb
      rw [eq_of_beq hbe]
      exact beq_self_eq_true _
    have hrest : findCI rest k = none := by
      apply List.find?_eq_none.mpr
      intro a ha
      exact List.find?_eq_none.mp h a (List.mem_cons_of_mem _ ha)
    rw [List.cons_append, assocGet?, if_neg hne]
    exact ih hrest

theorem assocSet_append_self {α : Type} {l : List (String × α)} {k : String} {x y : α}
    (h : findCI l k = none) : assocSet (l ++ [(k, x)]) k y = l ++ [(k, y)] := by
  induction l with
  | nil => simp [assocSet]
  | cons kv rest ih =>
    have hb : ¬ (kv.1.pyLower == k.pyLower) = true :=
      List.find?_eq_none.mp h kv (List.mem_cons_self _ _)
    have hne : ¬ (kv.1 == k) = true := by
      intro hbe
      apply hb
      rw [eq_of_beq hbe]
      exact beq_self_eq_true _
    have hrest : findCI rest k = none := by
      apply List.find?_eq_none.mpr
      intro a ha
      exact List.find?_eq_none.mp h a (List.mem_cons_of_mem _ ha)
    rw [List.cons_append, assocSet, if_neg hne, ih hrest]
    rfl

theorem docSetSecKey_found {d : Doc} {sec ts : String} {t : Table} {key : String} {v : Prim}
    (hf : findCI d sec = some (ts, Entry.tbl t)) :
    docSetSecKey d sec key v =
      Except.ok (assocSet d ts (Entry.tbl
        (assocSet t (match findCI t key with | some (k, _) => k | none => key) v))) := by
  have hhas : assocHas d ts = true := assocHas_of_mem (mem_of_findCI hf)
  have hget : assocGet? d ts = some (Entry.tbl t) := assocGet?_of_findCI hf
  rw [docSetSecKey, hf]
  simp only [hhas, if_true, hget]

theorem docSetSecKey_prim {d : Doc} {sec ts : String} {v0 : Prim} {key : String} {v : Prim}
    (hf : findCI d sec = some (ts, Entry.p v0)) :
    docSetSecKey d sec key v = Except.error () := by
  have hhas : assocHas d ts = true := assocHas_of_mem (mem_of_findCI hf)
  have hget : assocGet? d ts = some (Entry.p v0) := assocGet?_of_findCI hf
  rw [docSetSecKey, hf]
  simp only [hhas, if_true, hget]

theorem docSetSecKey_notFound {d : Doc} {sec key : String} {v : Prim}
    (hf : findCI d sec = none) :
    docSetSecKey d sec key v = Except.ok (d ++ [(sec, Entry.tbl [(key, v)])]) := by
  have hhas : assocHas d sec = false := findCI_none_not_has hf
  rw [docSetSecKey, hf]
  simp only [hhas, Bool.false_eq_true, if_false]
  rw [assocSet_of_findCI_none hf]
  rw [assocGet?_append_self hf]
  simp only [findCI]
  rw [assocSet_append_self hf]
  rfl

theorem docGetSec_tbl {d : Doc} {sec ts : String} {t : Table} {key : String}
    (h : findCI d sec = some (ts, Entry.tbl t)) :
    docGetSec d sec key =
      (match findCI t key with | none => "" | some (_, v) => primRender v) := by
  unfold docGetSec
  rw [h]

/-- C7 (amended): after a successful ImagesetDocument set of
(section, key, value), a get with the same section and the key in any
casing returns the str() rendering of the stored value; this equals the
stored value itself exactly when that value is a string. -/
theorem c7_roundtrip_render {d d' : Doc} {sec key key' : String} {v : Prim}
    (hset : docSetSecKey d sec key v = Except.ok d')
    (hk : key'.pyLower = key.pyLower) :
    docGetSec d' sec key' = primRender v := by
  cases hf : findCI d sec with
  | some pr =>
    obtain ⟨ts, e0⟩ := pr
    cases e0 with
    | p v0 =>
      rw [docSetSecKey_prim hf] at hset
      exact absurd hset (by simp)
    | tbl t =>
      rw [docSetSecKey_found hf] at hset
      cases hft : findCI t key with
      | some prk =>
        obtain ⟨tk, p0⟩ := prk
        rw [hft] at hset
        have hd : d' = assocSet d ts (Entry.tbl (assocSet t tk v)) :=
          (Except.ok.injEq _ _).mp hset.symm
        subst hd
        have hsec : findCI (assocSet d ts (Entry.tbl (assocSet t tk v))) sec =
            some (ts, Entry.tbl (assocSet t tk v)) := findCI_assocSet_self hf
        rw [docGetSec_tbl hsec]
        rw [findCI_congr hk, findCI_assocSet_self hft]
      | none =>
        rw [hft] at hset
        have hd : d' = assocSet d ts (Entry.tbl (assocSet t key v)) :=
          (Except.ok.injEq _ _).mp hset.symm
        subst hd
        have hsec : findCI (assocSet d ts (Entry.tbl (assocSet t key v))) sec =
            some (ts, Entry.tbl (assocSet t key v)) := findCI_assocSet_self hf
        rw [assocSet_of_findCI_none hft] at hsec
        rw [assocSet_of_findCI_none hft]
        rw [docGetSec_tbl hsec]
        rw [findCI_congr hk, findCI_append_self hft]
  | none =>
    rw [docSetSecKey_notFound hf] at hset
    have hd : d' = d ++ [(sec, Entry.tbl [(key, v)])] :=
      (Except.ok.injEq _ _).mp hset.symm
    subst hd
    have hsec : findCI (d ++ [(sec, Entry.tbl [(key, v)])]) sec =
        some (sec, Entry.tbl [(key, v)]) := findCI_append_self hf
    rw [docGetSec_tbl hsec]
    rw [findCI_congr hk]
    rw [findCI_cons]
    simp

/-- C7 witness: a concrete successful set followed by a differently-cased
get returning the rendered value. -/
theorem c7_roundtrip_render_witness :
    docGetSec [("biz", Entry.tbl [("Posted_To", Prim.s "stock")])] "biz" "posted_to" =
      primRender (Prim.s "stock") := by
  have h1 : docSetSecKey ([] : Doc) "biz" "Posted_To" (Prim.s "stock") =
      Except.ok [("biz", Entry.tbl [("Posted_To", Prim.s "stock")])] := by rfl
  have h2 : "posted_to".pyLower = "Posted_To".pyLower := by decide
  exact c7_roundtrip_render h1 h2

/-- C7 counterexample: writing the int value 5 and reading it back returns
the string "5", which is not the written value, so the set/get round trip
does not return the same value for every value. -/
theorem c7_roundtrip_counterexample :
    docSetSecKey ([] : Doc) "biz" "count" (Prim.i 5) =
      Except.ok [("biz", Entry.tbl [("count", Prim.i 5)])] ∧
    docGetSec [("biz", Entry.tbl [("count", Prim.i 5)])] "biz" "count" = "5" ∧
    Prim.s "5" ≠ Prim.i 5 :=
  ⟨by rfl, by rfl, by decide⟩

/-- C9: the filename tag parser is deterministic (equal inputs yield equal
outputs) and the returned extension always equals the extension
parse_file_parts extracts from the file name, untouched by tag stripping. -/
theorem c9_parser_deterministic_ext :
    (∀ (f₁ f₂ : String) (t₁ t₂ : List String), f₁ = f₂ → t₁ = t₂ →
      get_imageset_from_filename f₁ t₁ = get_imageset_from_filename f₂ t₂) ∧
    ∀ (f : String) (t : List String),
      (get_imageset_from_filename f t).2.1 = (parse_file_parts f).2 := by
  constructor
  · intro f₁ f₂ t₁ t₂ h1 h2
    rw [h1, h2]
  · intro f t
    rfl

theorem seqLeads_refl [BEq α] [LawfulBEq α] (l : List α) : seqLeads l l = true := by
  induction l with
  | nil => rfl
  | cons a as ih => simp [seqLeads, ih]

theorem renameTree_mem_new (fs : Fs) (old new : Path) (h : old ∈ fs) :
    new ∈ renameTree fs old new := by
  unfold renameTree
  have heq : (if seqLeads old old = true then new ++ old.drop old.length else old) = new := by
    rw [if_pos (seqLeads_refl old), List.drop_length, List.append_nil]
  exact List.mem_map.mpr ⟨old, h, heq⟩

theorem append_archive_ne (l : Path) : l ≠ l ++ ["_archive"] := by
  intro h
  have := congrArg List.length h
  simp at this

theorem validateCSV_false_of_bad {v e : String} {valid : List String}
    (he : e ∈ csvElems v) (hbad : valid.contains e = false) :
    validateCSV v valid = false := by
  by_cases hv : v = ""
  · subst hv
    have hnil : csvElems "" = [] := rfl
    rw [hnil] at he
    exact absurd he (List.not_mem_nil e)
  · rw [validateCSV, if_neg hv]
    rw [Bool.eq_false_iff]
    intro hall
    rw [List.all_eq_true] at hall
    have hc := hall e he
    rw [hbad] at hc
    exact Bool.false_ne_true hc

theorem archiveImageset_ok {st st' : ISState} {fs fs' : Fs}
    (heq : archiveImageset st fs = (none, st', fs')) :
    st'.imageset_folder = st.folder_name ++ ["_archive", st.imageset_name] ∧
    (st.imageset_folder ∈ fs → st'.imageset_folder ∈ fs') := by
  simp only [archiveImageset] at heq
  split at heq
  · split at heq
    · exact absurd heq (by simp)
    · simp only [Prod.mk.injEq] at heq
      obtain ⟨-, hst, hfs⟩ := heq
      subst hst
      subst hfs
      refine ⟨by simp, fun hm => ?_⟩
      exact renameTree_mem_new _ _ _ hm
  · split at heq
    · exact absurd heq (by simp)
    · simp only [Prod.mk.injEq] at heq
      obtain ⟨-, hst, hfs⟩ := heq
      subst hst
      subst hfs
      refine ⟨by simp, fun hm => ?_⟩
      exact renameTree_mem_new _ _ _ (List.mem_append_left _ hm)

theorem ensureArchiveLocation_ok {st st' : ISState} {fs fs' : Fs}
    (hstat : docGetTop st.doc "status" = "archive")
    (hpar : st.imageset_folder.dropLast ≠ st.folder_name ++ ["_archive"])
    (hmem : st.imageset_folder ∈ fs)
    (heq : ensureArchiveLocation st fs = .ok (st', fs')) :
    st'.imageset_folder = st.folder_name ++ ["_archive", st.imageset_name] ∧
    st'.imageset_folder ∈ fs' := by
  simp only [ensureArchiveLocation] at heq
  rw [if_neg (not_not_intro hstat)] at heq
  rw [if_neg hpar] at heq
  split at heq
  · split at heq
    · exact absurd heq (by simp)
    · simp only [Except.ok.injEq, Prod.mk.injEq] at heq
      obtain ⟨hst, hfs⟩ := heq
      subst hst
      subst hfs
      refine ⟨by simp, ?_⟩
      exact renameTree_mem_new _ _ _ hmem
  · split at heq
    · exact absurd heq (by simp)
    · simp only [Except.ok.injEq, Prod.mk.injEq] at heq
      obtain ⟨hst, hfs⟩ := heq
      subst hst
      subst hfs
      refine ⟨by simp, ?_⟩
      exact renameTree_mem_new _ _ _ (List.mem_append_left _ hmem)

/-- C1: assigning status "archive" completes with the imageset folder
directly under the parent folder's _archive subfolder and the stored
imageset_folder equal to that location; likewise, constructing an Imageset
over a folder whose sidecar already records status "archive" (and whose
folder is not yet under _archive) relocates the folder under _archive
during construction. -/
theorem c1_archive_location :
    (∀ (cfg : Cfg) (st : ISState) (fs : Fs) (st' : ISState) (fs' : Fs),
      st.imageset_folder ∈ fs →
      statusSet cfg st fs "archive" = (none, st', fs') →
      st'.imageset_folder = st.folder_name ++ ["_archive", st.imageset_name] ∧
      st'.imageset_folder ∈ fs') ∧
    ∀ (folder : Path) (name : String) (d : Doc) (fs : Fs) (st : ISState) (fs' : Fs),
      mkImagesetLoc folder name (.valid d) fs = .ok (st, fs') →
      docGetTop (ensureRequiredKeys d name) "status" = "archive" →
      st.imageset_folder = folder ++ ["_archive", name] ∧ st.imageset_folder ∈ fs' := by
  constructor
  · intro cfg st fs st' fs' hmem heq
    simp only [statusSet] at heq
    split at heq
    · exact absurd heq (by simp)
    · rw [if_pos trivial] at heq
      obtain ⟨h1, h2⟩ := archiveImageset_ok heq
      exact ⟨h1, h2 hmem⟩
  · intro folder name d fs st fs' heq hstat
    simp only [mkImagesetLoc] at heq
    split at heq
    · exact absurd heq (by simp)
    · split at heq
      · exact absurd heq (by simp)
      · rename_i hfold hsub
        simp only [loadSidecar] at heq
        have hmem2 : folder ++ [name] ∈ fs := by simpa using hsub
        have hpar2 : ((⟨folder, name, folder ++ [name],
            ensureRequiredKeys d name⟩ : ISState).imageset_folder).dropLast ≠
            folder ++ ["_archive"] := by
          intro hp
          have hdl : (folder ++ [name]).dropLast = folder := by simp
          exact absurd (hdl.symm.trans hp) (append_archive_ne folder)
        obtain ⟨h1, h2⟩ := ensureArchiveLocation_ok hstat hpar2 hmem2 heq
        exact ⟨h1, h2⟩

/-- C9 witness: the determinism and extension facts instantiated at a
concrete file name and tag vocabulary. -/
theorem c9_parser_deterministic_ext_witness :
    get_imageset_from_filename "cat_orig.png" ["orig"] =
      get_imageset_from_filename "cat_orig.png" ["orig"] ∧
    (get_imageset_from_filename "cat_orig.png" ["orig"]).2.1 =
      (parse_file_parts "cat_orig.png").2 :=
  ⟨c9_parser_deterministic_ext.1 "cat_orig.png" "cat_orig.png" ["orig"] ["orig"] rfl rfl,
   c9_parser_deterministic_ext.2 "cat_orig.png" ["orig"]⟩

/-- C1 witness: a concrete archive assignment and a concrete construction
over an archive-marked sidecar, with all hypotheses discharged. -/
theorem c1_archive_location_witness :
    ((ISState.mk ["base"] "cat" ["base", "_archive", "cat"]
        [("status", Entry.p (Prim.s "archive")), ("imageset", Entry.p (Prim.s "cat")),
         ("edits", Entry.p (Prim.s "")), ("needs", Entry.p (Prim.s "")),
         ("source", Entry.p (Prim.s "unknown"))]).imageset_folder =
      ["base"] ++ ["_archive", "cat"] ∧
     (ISState.mk ["base"] "cat" ["base", "_archive", "cat"]
        [("status", Entry.p (Prim.s "archive")), ("imageset", Entry.p (Prim.s "cat")),
         ("edits", Entry.p (Prim.s "")), ("needs", Entry.p (Prim.s "")),
         ("source", Entry.p (Prim.s "unknown"))]).imageset_folder ∈
      ([["base"], ["base", "_archive", "cat"], ["base", "_archive"]] : Fs)) ∧
    (ISState.mk ["base"] "cat" ["base", "_archive", "cat"]
        [("status", Entry.p (Prim.s "archive")), ("imageset", Entry.p (Prim.s "cat")),
         ("edits", Entry.p (Prim.s "")), ("needs", Entry.p (Prim.s "")),
         ("source", Entry.p (Prim.s "unknown"))]).imageset_folder =
      ["base"] ++ ["_archive", "cat"] ∧
    (ISState.mk ["base"] "cat" ["base", "_archive", "cat"]
        [("status", Entry.p (Prim.s "archive")), ("imageset", Entry.p (Prim.s "cat")),
         ("edits", Entry.p (Prim.s "")), ("needs", Entry.p (Prim.s "")),
         ("source", Entry.p (Prim.s "unknown"))]).imageset_folder ∈
      ([["base"], ["base", "_archive", "cat"], ["base", "_archive"]] : Fs) := by
  constructor
  · exact c1_archive_location.1
      ⟨["new", "edit", "archive"], ["crop"], [], [], [], ["orig"], ["png"]⟩
      ⟨["base"], "cat", ["base", "cat"], [("status", Entry.p (Prim.s "new"))]⟩
      [["base"], ["base", "cat"]] _ _ (by decide) rfl
  · exact c1_archive_location.2 ["base"] "cat" [("status", Entry.p (Prim.s "archive"))]
      [["base"], ["base", "cat"]] _ _ rfl rfl

/-- C4 (amended): assigning the edits setter a non-empty validated value
while status differs from "edit" stores the edits value and forces status
to "edit" (as the claim states); the status setter itself, however, never
consults edits: any valid non-archive value is stored exactly as written. -/
theorem c4_edits_forces_edit_status :
    (∀ (cfg : Cfg) (st : ISState) (fs : Fs) (v : String),
      validateCSV v cfg.edits = true → v ≠ "" → pyStrip v ≠ "" →
      docGetTop st.doc "status" ≠ "edit" → cfg.status.contains "edit" = true →
      ∃ st' : ISState,
        editsSet cfg st fs v = (none, st', fs) ∧
        docGetTop st'.doc "status" = "edit" ∧ docGetTop st'.doc "edits" = v) ∧
    ∀ (cfg : Cfg) (st : ISState) (fs : Fs) (v : String),
      v ≠ "archive" → cfg.status.contains v = true →
      (statusSet cfg st fs v).1 = none ∧
      docGetTop (statusSet cfg st fs v).2.1.doc "status" = v := by
  constructor
  · intro cfg st fs v hval hne hstrip hstatus hedit
    have hss : statusSet cfg st fs "edit" =
        (none, {st with doc := docSetTop st.doc "status" (Entry.p (Prim.s "edit"))}, fs) := by
      simp only [statusSet]
      rw [if_neg (fun hc => hc.2 hedit), if_neg (by decide)]
    have heq : editsSet cfg st fs v =
        (none, ISState.mk st.folder_name st.imageset_name st.imageset_folder
          (docSetTop (docSetTop st.doc "status" (Entry.p (Prim.s "edit")))
            "edits" (Entry.p (Prim.s v))), fs) := by
      rw [editsSet, if_neg (not_not_intro hval), if_pos ⟨hne, hstrip, hstatus⟩, hss]
    refine ⟨_, heq, ?_, ?_⟩
    · have hne2 : "edits".pyLower ≠ "status".pyLower := by decide
      show docGetTop (docSetTop (docSetTop st.doc "status" (Entry.p (Prim.s "edit")))
        "edits" (Entry.p (Prim.s v))) "status" = "edit"
      rw [docGetTop_docSetTop_other hne2, docGetTop_docSetTop_same]
      rfl
    · show docGetTop (docSetTop (docSetTop st.doc "status" (Entry.p (Prim.s "edit")))
        "edits" (Entry.p (Prim.s v))) "edits" = v
      rw [docGetTop_docSetTop_same]
      rfl
  · intro cfg st fs v hvne hvmem
    simp only [statusSet]
    rw [if_neg (fun hc => hc.2 hvmem), if_neg hvne]
    refine ⟨rfl, ?_⟩
    show docGetTop (docSetTop st.doc "status" (Entry.p (Prim.s v))) "status" = v
    rw [docGetTop_docSetTop_same]
    rfl

/-- C4 witness: a concrete forced transition to "edit" and a concrete
non-archive status write. -/
theorem c4_edits_forces_edit_status_witness :
    (∃ st' : ISState,
      editsSet ⟨["new", "edit", "archive"], ["crop"], [], [], [], [], []⟩
        ⟨["base"], "cat", ["base", "cat"], [("status", Entry.p (Prim.s "new"))]⟩ [] "crop" =
        (none, st', []) ∧
      docGetTop st'.doc "status" = "edit" ∧ docGetTop st'.doc "edits" = "crop") ∧
    (statusSet ⟨["new", "edit", "keep", "archive"], [], [], [], [], [], []⟩
        ⟨["base"], "cat", ["base", "cat"], [("status", Entry.p (Prim.s "new"))]⟩ [] "keep").1 =
      none ∧
    docGetTop (statusSet ⟨["new", "edit", "keep", "archive"], [], [], [], [], [], []⟩
        ⟨["base"], "cat", ["base", "cat"], [("status", Entry.p (Prim.s "new"))]⟩ [] "keep").2.1.doc
      "status" = "keep" := by
  refine ⟨?_, ?_⟩
  · exact c4_edits_forces_edit_status.1 _ _ _ "crop" (by decide) (by decide) (by decide)
      (by decide) (by decide)
  · exact c4_edits_forces_edit_status.2 _ _ _ "keep" (by decide) (by decide)

/-- C4 counterexample: with edits non-empty ("crop"), writing the
non-archive status "keep" stores "keep" and does not force status to
"edit", refuting the claim's second half. -/
theorem c4_status_ignores_edits_counterexample :
    docGetTop [("status", Entry.p (Prim.s "new")), ("edits", Entry.p (Prim.s "crop"))]
      "edits" = "crop" ∧
    statusSet ⟨["new", "edit", "keep", "archive"], ["crop"], [], [], [], [], []⟩
        ⟨["base"], "cat", ["base", "cat"],
         [("status", Entry.p (Prim.s "new")), ("edits", Entry.p (Prim.s "crop"))]⟩ [] "keep" =
      (none, ⟨["base"], "cat", ["base", "cat"],
         [("status", Entry.p (Prim.s "keep")), ("edits", Entry.p (Prim.s "crop"))]⟩, []) ∧
    docGetTop [("status", Entry.p (Prim.s "keep")), ("edits", Entry.p (Prim.s "crop"))]
      "status" = "keep" ∧
    "keep" ≠ ("edit" : String) :=
  ⟨by rfl, by rfl, by rfl, by decide⟩

/-- C5: each validated setter rejects a value containing an element outside
its configured vocabulary with a ValueError raised before any mutation,
returning the document (and the state and filesystem, the database being
untouched by all five setters) unchanged. -/
theorem c5_setters_validate_before_mutation :
    (∀ (cfg : Cfg) (st : ISState) (fs : Fs) (v : String),
      v ≠ "" → cfg.status.contains v = false →
      statusSet cfg st fs v = (some .valueError, st, fs)) ∧
    (∀ (cfg : Cfg) (st : ISState) (fs : Fs) (v e : String),
      e ∈ csvElems v → cfg.edits.contains e = false →
      editsSet cfg st fs v = (some .valueError, st, fs)) ∧
    (∀ (cfg : Cfg) (st : ISState) (fs : Fs) (v e : String),
      e ∈ csvElems v → cfg.needs.contains e = false →
      needsSet cfg st fs v = (some .valueError, st, fs)) ∧
    (∀ (cfg : Cfg) (st : ISState) (fs : Fs) (v e : String),
      e ∈ csvElems v → cfg.good_for.contains e = false →
      goodForSet cfg st fs v = (some .valueError, st, fs)) ∧
    ∀ (cfg : Cfg) (st : ISState) (fs : Fs) (v e : String),
      e ∈ csvElems v → cfg.posted_to.contains e = false →
      postedToSet cfg st fs v = (some .valueError, st, fs) := by
  refine ⟨?_, ?_, ?_, ?_, ?_⟩
  · intro cfg st fs v hne hbad
    rw [statusSet, if_pos ⟨hne, by rw [hbad]; simp⟩]
  · intro cfg st fs v e he hbad
    have hv : validateCSV v cfg.edits = false := validateCSV_false_of_bad he hbad
    rw [editsSet, if_pos (by simp [hv])]
  · intro cfg st fs v e he hbad
    have hv : validateCSV v cfg.needs = false := validateCSV_false_of_bad he hbad
    rw [needsSet, if_pos (by simp [hv])]
  · intro cfg st fs v e he hbad
    have hv : validateCSV v cfg.good_for = false := validateCSV_false_of_bad he hbad
    rw [goodForSet, if_pos (by simp [hv])]
  · intro cfg st fs v e he hbad
    have hv : validateCSV v cfg.posted_to = false := validateCSV_false_of_bad he hbad
    rw [postedToSet, if_pos (by simp [hv])]

/-- C5 witness: each of the five setters rejecting a concrete
out-of-vocabulary value and leaving the state unchanged. -/
theorem c5_setters_validate_before_mutation_witness :
    statusSet ⟨["new"], ["crop"], ["fix"], ["stock"], ["shop"], [], []⟩
      ⟨[], "x", ["x"], []⟩ [] "bogus" =
      (some .valueError, ⟨[], "x", ["x"], []⟩, []) ∧
    editsSet ⟨["new"], ["crop"], ["fix"], ["stock"], ["shop"], [], []⟩
      ⟨[], "x", ["x"], []⟩ [] "bogus" =
      (some .valueError, ⟨[], "x", ["x"], []⟩, []) ∧
    needsSet ⟨["new"], ["crop"], ["fix"], ["stock"], ["shop"], [], []⟩
      ⟨[], "x", ["x"], []⟩ [] "bogus" =
      (some .valueError, ⟨[], "x", ["x"], []⟩, []) ∧
    goodForSet ⟨["new"], ["crop"], ["fix"], ["stock"], ["shop"], [], []⟩
      ⟨[], "x", ["x"], []⟩ [] "bogus" =
      (some .valueError, ⟨[], "x", ["x"], []⟩, []) ∧
    postedToSet ⟨["new"], ["crop"], ["fix"], ["stock"], ["shop"], [], []⟩
      ⟨[], "x", ["x"], []⟩ [] "bogus" =
      (some .valueError, ⟨[], "x", ["x"], []⟩, []) := by
  refine ⟨?_, ?_, ?_, ?_, ?_⟩
  · exact c5_setters_validate_before_mutation.1 _ _ _ "bogus" (by decide) (by decide)
  · exact c5_setters_validate_before_mutation.2.1 _ _ _ "bogus" "bogus" (by decide) (by decide)
  · exact c5_setters_validate_before_mutation.2.2.1 _ _ _ "bogus" "bogus" (by decide) (by decide)
  · exact c5_setters_validate_before_mutation.2.2.2.1 _ _ _ "bogus" "bogus" (by decide) (by decide)
  · exact c5_setters_validate_before_mutation.2.2.2.2 _ _ _ "bogus" "bogus" (by decide) (by decide)

theorem loosePhase_go_keeps {file_tags : List String} {f : String} :
    ∀ (snap : List String) (s : TopFolder × List String),
      f ∈ s.1.loose →
      (∀ g ∈ snap, is_image_file g = true →
        strContainsSub f (get_imageset_from_filename g file_tags).1 = false) →
      f ∈ (snap.foldl (looseStep file_tags) s).1.loose := by
  intro snap
  induction snap with
  | nil =>
    intro s hf _
    simpa using hf
  | cons g rest ih =>
    intro s hf hno
    rw [List.foldl_cons]
    apply ih
    · simp only [looseStep, move_files]
      split
      · exact hf
      · split
        · exact hf
        · rename_i hpresent himg
          have himg' : is_image_file g = true := by simpa using himg
          have hnog := hno g (List.mem_cons_self g rest) himg'
          rw [List.mem_filter]
          refine ⟨?_, by rw [hnog]; rfl⟩
          split
          · exact hf
          · exact hf
    · intro g' hg' hgimg
      exact hno g' (List.mem_cons_of_mem _ hg') hgimg

/-- C3 (amended): during loose-file routing, a non-image loose file whose
name contains no processed image file's derived imageset name as a
substring stays in the top-level folder; a non-image file matching such a
name is moved along (see the counterexample). -/
theorem c3_unmatched_nonimage_untouched :
    ∀ (file_tags : List String) (tf : TopFolder) (f : String),
      f ∈ tf.loose → is_image_file f = false →
      (∀ g ∈ tf.loose, is_image_file g = true →
        strContainsSub f (get_imageset_from_filename g file_tags).1 = false) →
      f ∈ (loosePhase file_tags tf).1.loose := by
  intro ft tf f hf hfimg hno
  rw [loosePhase]
  apply loosePhase_go_keeps _ _ hf
  intro g hg hgimg
  exact hno g (List.mem_of_mem_filter hg) hgimg

/-- C3 witness: a non-image file matching no imageset name survives a
concrete loose-file pass untouched. -/
theorem c3_unmatched_nonimage_untouched_witness :
    "note.txt" ∈ (loosePhase ["orig"] ⟨["cat_orig.png", "note.txt"], []⟩).1.loose :=
  c3_unmatched_nonimage_untouched ["orig"] ⟨["cat_orig.png", "note.txt"], []⟩ "note.txt"
    (by decide) (by decide) (by decide)

/-- C3 counterexample: the non-image loose file "cat.txt" contains the
imageset name "cat" derived from the image file "cat_orig.png", so
move_files moves it into the cat subfolder instead of leaving it
untouched in the top-level folder. -/
theorem c3_nonimage_moved_counterexample :
    is_image_file "cat.txt" = false ∧
    (loosePhase ["orig"] ⟨["cat_orig.png", "cat.txt"], []⟩).1.loose = [] ∧
    (loosePhase ["orig"] ⟨["cat_orig.png", "cat.txt"], []⟩).1.subs =
      [("cat", ["cat_orig.png", "cat.txt"])] :=
  ⟨by rfl, by rfl, by rfl⟩

theorem processGo_no_archive (folder : Path) (sc : String → SidecarFile) :
    ∀ (names : List String) (fs : Fs) (acc : List (String × ISState)),
      (∀ p ∈ acc, docGetTop p.2.doc "status" ≠ "archive") →
      ∀ p ∈ (processGo folder sc fs acc names).1,
        docGetTop p.2.doc "status" ≠ "archive" := by
  intro names
  induction names with
  | nil =>
    intro fs acc hacc p hp
    exact hacc p (by simpa [processGo] using hp)
  | cons n rest ih =>
    intro fs acc hacc p hp
    rw [processGo] at hp
    cases hm : mkImagesetLoc folder n (sc n) fs with
    | error pr =>
      obtain ⟨e, fs1⟩ := pr
      rw [hm] at hp
      exact hacc p hp
    | ok pr =>
      obtain ⟨is, fs1⟩ := pr
      rw [hm] at hp
      refine ih fs1 _ ?_ p hp
      intro q hq
      by_cases hst : docGetTop is.doc "status" ≠ "archive"
      · rw [if_pos hst] at hq
        rcases List.mem_append.mp hq with h1 | h2
        · exact hacc q h1
        · have hq2 : q = (n, is) := by simpa using h2
          rw [hq2]
          exact hst
      · rw [if_neg hst] at hq
        exact hacc q hq

/-- C10: every Imageset in the map returned by the folder scan's subfolder
pass has a status different from "archive"; archive-status imagesets are
skipped even though their subfolder was scanned. -/
theorem c10_scan_map_no_archive :
    ∀ (folder : Path) (sc : String → SidecarFile) (fs : Fs) (names : List String)
      (n : String) (is : ISState),
      (n, is) ∈ (processSubfolders folder sc fs names).1 →
      docGetTop is.doc "status" ≠ "archive" := by
  intro folder sc fs names n is hmem
  exact processGo_no_archive folder sc names fs []
    (fun p hp => absurd hp (List.not_mem_nil p)) (n, is) hmem

/-- C10 witness: a concrete scan whose returned map entry has a
non-archive status. -/
theorem c10_scan_map_no_archive_witness :
    docGetTop [("imageset", Entry.p (Prim.s "b")), ("status", Entry.p (Prim.s "new")),
      ("edits", Entry.p (Prim.s "")), ("needs", Entry.p (Prim.s "")),
      ("source", Entry.p (Prim.s "unknown"))] "status" ≠ "archive" :=
  c10_scan_map_no_archive ["base"] (fun _ => SidecarFile.valid []) [["base"], ["base", "b"]]
    ["b"] "b"
    ⟨["base"], "b", ["base", "b"],
      [("imageset", Entry.p (Prim.s "b")), ("status", Entry.p (Prim.s "new")),
       ("edits", Entry.p (Prim.s "")), ("needs", Entry.p (Prim.s "")),
       ("source", Entry.p (Prim.s "unknown"))]⟩
    (by decide)

/-- C2 (amended): per-loose-file failures are logged and skipped, but a
failure constructing one subfolder's Imageset aborts the processing of the
remaining subfolders: folder_scan returns False with the map containing
only the imagesets built before the failure. -/
theorem c2_subfolder_failure_aborts :
    ∀ (folder : Path) (sc : String → SidecarFile) (fs fs1 : Fs)
      (acc : List (String × ISState)) (n : String) (rest : List String) (e : PyErr),
      mkImagesetLoc folder n (sc n) fs = .error (e, fs1) →
      processGo folder sc fs acc (n :: rest) = (acc, false, fs1) := by
  intro folder sc fs fs1 acc n rest e heq
  rw [processGo, heq]

/-- C2 witness: a concrete scan aborting at a corrupt sidecar and
returning the partial map. -/
theorem c2_subfolder_failure_aborts_witness :
    processGo ["base"]
      (fun n => if n == "bad" then SidecarFile.badToml else SidecarFile.valid [])
      [["base"], ["base", "bad"], ["base", "good"]] [] ["bad", "good"] =
      ([], false, [["base"], ["base", "bad"], ["base", "good"]]) :=
  c2_subfolder_failure_aborts ["base"]
    (fun n => if n == "bad" then SidecarFile.badToml else SidecarFile.valid [])
    [["base"], ["base", "bad"], ["base", "good"]]
    [["base"], ["base", "bad"], ["base", "good"]] [] "bad" ["good"] PyErr.tomlDecode (by rfl)

/-- C2 counterexample: with a corrupt sidecar in subfolder "bad" and a
healthy subfolder "good", the scan aborts: "good" is constructible on its
own, yet the returned map omits it, refuting the claim that every other
non-failing subfolder still has its Imageset constructed. -/
theorem c2_scan_abort_counterexample :
    (mkImagesetLoc ["base"] "good" (SidecarFile.valid [])
      [["base"], ["base", "bad"], ["base", "good"]]).isOk = true ∧
    processSubfolders ["base"]
      (fun n => if n == "bad" then SidecarFile.badToml else SidecarFile.valid [])
      [["base"], ["base", "bad"], ["base", "good"]] ["bad", "good"] =
      ([], false, [["base"], ["base", "bad"], ["base", "good"]]) ∧
    ¬ ("good" ∈ (processSubfolders ["base"]
      (fun n => if n == "bad" then SidecarFile.badToml else SidecarFile.valid [])
      [["base"], ["base", "bad"], ["base", "good"]] ["bad", "good"]).1.map Prod.fst) :=
  ⟨by rfl, by rfl, by decide⟩

theorem contains_true_of_mem {α : Type} [BEq α] [LawfulBEq α] {a : α} {l : List α}
    (h : a ∈ l) : l.contains a = true :=
  List.elem_eq_true_of_mem h

theorem mem_of_contains_true {α : Type} [BEq α] [LawfulBEq α] {a : α} {l : List α}
    (h : l.contains a = true) : a ∈ l :=
  List.mem_of_elem_eq_true h

theorem lastDotIdx_none_no_dot : ∀ {cs : List Char}, lastDotIdx cs = none →
    ∀ c ∈ cs, c ≠ '.' := by
  intro cs
  induction cs with
  | nil =>
    intro _ c hc
    exact absurd hc (List.not_mem_nil c)
  | cons b bs ih =>
    intro h c hc
    rw [lastDotIdx] at h
    cases hb : lastDotIdx bs with
    | some i =>
      rw [hb] at h
      exact absurd h (by simp)
    | none =>
      rw [hb] at h
      have hbne : b ≠ '.' := by
        intro hbe
        rw [if_pos hbe] at h
        exact absurd h (by simp)
      rcases List.mem_cons.mp hc with h1 | h2
      · rw [h1]
        exact hbne
      · exact ih hb c h2

theorem lastDotIdx_none_of_no_dot : ∀ {cs : List Char}, (∀ c ∈ cs, c ≠ '.') →
    lastDotIdx cs = none := by
  intro cs
  induction cs with
  | nil => intro _; rfl
  | cons b bs ih =>
    intro h
    rw [lastDotIdx, ih (fun c hc => h c (List.mem_cons_of_mem b hc))]
    rw [if_neg (h b (List.mem_cons_self b bs))]

theorem lastDotIdx_spec : ∀ {cs : List Char} {i : Nat}, lastDotIdx cs = some i →
    ∃ bs, cs.drop i = '.' :: bs ∧ ∀ c ∈ bs, c ≠ '.' := by
  intro cs
  induction cs with
  | nil =>
    intro i h
    rw [lastDotIdx] at h
    exact absurd h (by simp)
  | cons b t ih =>
    intro i h
    rw [lastDotIdx] at h
    cases hb : lastDotIdx t with
    | some j =>
      rw [hb] at h
      have hij : i = j + 1 := by
        have h2 : some (j + 1) = some i := h
        simpa using h2.symm
      subst hij
      simpa using ih hb
    | none =>
      rw [hb] at h
      by_cases hbe : b = '.'
      · rw [if_pos hbe] at h
        have hi0 : i = 0 := by
          have h2 : some 0 = some i := h
          simpa using h2.symm
        subst hi0
        exact ⟨t, by rw [hbe, List.drop_zero], lastDotIdx_none_no_dot hb⟩
      · rw [if_neg hbe] at h
        exact absurd h (by simp)

theorem pySplitext_ext_structure {s : String} (h : (pySplitext s).2 ≠ "") :
    ∃ bs : List Char, (pySplitext s).2.data = '.' :: bs ∧ ∀ c ∈ bs, c ≠ '.' := by
  rw [pySplitext] at h ⊢
  cases hl : lastDotIdx s.toList with
  | none =>
    rw [hl] at h
    simp only [pySplitextAux] at h
    exact absurd rfl h
  | some i =>
    rw [hl] at h
    simp only [pySplitextAux] at h ⊢
    by_cases ha : (s.toList.take i).any (fun c => c != '.') = true
    · rw [if_pos ha]
      obtain ⟨bs, hd, hnd⟩ := lastDotIdx_spec hl
      exact ⟨bs, hd, hnd⟩
    · rw [if_neg ha] at h
      exact absurd rfl h

theorem lastDotIdx_append {ys : List Char} (hnd : ∀ c ∈ ys, c ≠ '.') :
    ∀ xs : List Char, lastDotIdx (xs ++ '.' :: ys) = some xs.length := by
  intro xs
  induction xs with
  | nil =>
    show lastDotIdx ('.' :: ys) = some 0
    rw [lastDotIdx, lastDotIdx_none_of_no_dot hnd, if_pos rfl]
  | cons x xs' ih =>
    show lastDotIdx (x :: (xs' ++ '.' :: ys)) = some (xs'.length + 1)
    rw [lastDotIdx, ih]

theorem string_mk_data (s : String) : String.mk s.data = s := rfl

theorem pySplitext_tagged (stem : String) {ext : String} {bs : List Char}
    (hdata : ext.data = '.' :: bs) (hnd : ∀ c ∈ bs, c ≠ '.') :
    pySplitext (stem ++ "_" ++ "orig" ++ ext) = (stem ++ "_" ++ "orig", ext) := by
  have hchars : (stem ++ "_" ++ "orig" ++ ext).toList =
      (stem ++ "_" ++ "orig").data ++ '.' :: bs := by
    show (stem ++ "_" ++ "orig" ++ ext).data = (stem ++ "_" ++ "orig").data ++ '.' :: bs
    rw [String.data_append, hdata]
  rw [pySplitext, hchars, lastDotIdx_append hnd]
  simp only [pySplitextAux]
  rw [hchars]
  have htake : ((stem ++ "_" ++ "orig").data ++ '.' :: bs).take
      (stem ++ "_" ++ "orig").data.length = (stem ++ "_" ++ "orig").data := by
    rw [List.take_left]
  have hdrop : ((stem ++ "_" ++ "orig").data ++ '.' :: bs).drop
      (stem ++ "_" ++ "orig").data.length = '.' :: bs := by
    rw [List.drop_left]
  have hany : (((stem ++ "_" ++ "orig").data ++ '.' :: bs).take
      (stem ++ "_" ++ "orig").data.length).any (fun c => c != '.') = true := by
    rw [htake, List.any_eq_true]
    refine ⟨'_', ?_, by decide⟩
    show '_' ∈ (stem ++ "_" ++ "orig").data
    rw [show (stem ++ "_" ++ "orig").data = (stem ++ "_").data ++ "orig".data from
      String.data_append _ _]
    apply List.mem_append_left
    rw [String.data_append]
    exact List.mem_append_right _ (by decide)
  rw [if_pos hany, htake, hdrop]
  rw [show String.mk ('.' :: bs) = ext from by rw [← hdata]]

theorem seqLeads_append_self {α : Type} [BEq α] [LawfulBEq α] (p ys : List α) :
    seqLeads p (p ++ ys) = true := by
  induction p with
  | nil => rfl
  | cons a as ih => simp [seqLeads, ih]

theorem seqHasSub_nil_pat (t : List Char) : seqHasSub ([] : List Char) t = true := by
  cases t <;> simp [seqHasSub, seqLeads]

theorem seqHasSub_here (p ys : List Char) : seqHasSub p (p ++ ys) = true := by
  cases p with
  | nil => exact seqHasSub_nil_pat ys
  | cons a as =>
    show seqHasSub (a :: as) (a :: (as ++ ys)) = true
    have h1 : seqLeads (a :: as) (a :: (as ++ ys)) = true := seqLeads_append_self (a :: as) ys
    simp [seqHasSub, h1]

theorem seqHasSub_cons (x : Char) {p t : List Char} (h : seqHasSub p t = true) :
    seqHasSub p (x :: t) = true := by
  simp [seqHasSub, h]

theorem seqHasSub_append_left (xs : List Char) {p t : List Char}
    (h : seqHasSub p t = true) : seqHasSub p (xs ++ t) = true := by
  induction xs with
  | nil => simpa using h
  | cons x xs' ih => simpa using seqHasSub_cons x ih

theorem filter_map_rename {P : String → Bool} {files : List String} {f N : String}
    (hflt : files.filter P = [f]) (hPN : P N = true) :
    (files.map (fun g => if g == f then N else g)).filter P = [N] := by
  induction files with
  | nil => exact absurd hflt (by simp)
  | cons x xs ih =>
    by_cases hx : P x = true
    · rw [List.filter_cons, if_pos hx] at hflt
      injection hflt with h1 h2
      subst h1
      rw [List.map_cons]
      have hrx : (if x == x then N else x) = N := by simp
      have hmapxs : List.map (fun g => if g == x then N else g) xs = xs := by
        have hcong : ∀ a ∈ xs, (if a == x then N else a) = id a := by
          intro a ha
          have hax : a ≠ x := by
            intro he
            subst he
            have hmem : a ∈ List.filter P xs := List.mem_filter.mpr ⟨ha, hx⟩
            rw [h2] at hmem
            exact absurd hmem (List.not_mem_nil a)
          have hbeq : (a == x) = false := beq_eq_false_iff_ne.mpr hax
          simp [hbeq]
        rw [List.map_congr_left hcong, List.map_id]
      rw [hrx, hmapxs, List.filter_cons, if_pos hPN, h2]
    · rw [List.filter_cons, if_neg hx] at hflt
      have hxf : x ≠ f := by
        intro he
        subst he
        have hmem : x ∈ List.filter P xs := by
          rw [hflt]
          exact List.mem_singleton_self x
        exact hx (List.mem_filter.mp hmem).2
      rw [List.map_cons]
      have hrx : (if x == f then N else x) = x := by
        have hbeq : (x == f) = false := beq_eq_false_iff_ne.mpr hxf
        simp [hbeq]
      rw [hrx, List.filter_cons, if_neg hx]
      exact ih hflt

/-- C6: on an imageset folder whose listing holds exactly one image file,
carrying no recognized tags, the first orig_image access renames that file
once (appending the _orig tag) and returns its new path; the second access
performs no further rename and returns the same path. -/
theorem c6_orig_image_idempotent :
    ∀ (cfg : Cfg) (folder : Path) (files : List String) (f : String),
      files.filter (fun g => isImageName cfg g) = [f] →
      tagsOfName cfg f = [] →
      cfg.fileTags.contains "orig" = true →
      (cfg.imgFileExt.map (fun e => e.pyLower)).contains "" = false →
      files.contains ((pySplitext f).1 ++ "_" ++ "orig" ++ (pySplitext f).2) = false →
      orig_image cfg folder files =
        .ok (folder ++ [(pySplitext f).1 ++ "_" ++ "orig" ++ (pySplitext f).2],
          files.map (fun g =>
            if g == f then (pySplitext f).1 ++ "_" ++ "orig" ++ (pySplitext f).2 else g)) ∧
      orig_image cfg folder (files.map (fun g =>
          if g == f then (pySplitext f).1 ++ "_" ++ "orig" ++ (pySplitext f).2 else g)) =
        .ok (folder ++ [(pySplitext f).1 ++ "_" ++ "orig" ++ (pySplitext f).2],
          files.map (fun g =>
            if g == f then (pySplitext f).1 ++ "_" ++ "orig" ++ (pySplitext f).2 else g)) := by
  intro cfg folder files f himg htags horig hne0 hnew
  have hfmem : f ∈ files := by
    have h1 : f ∈ files.filter (fun g => isImageName cfg g) := by
      rw [himg]
      exact List.mem_singleton_self f
    exact List.mem_of_mem_filter h1
  have hPf : isImageName cfg f = true := by
    have h1 : f ∈ files.filter (fun g => isImageName cfg g) := by
      rw [himg]
      exact List.mem_singleton_self f
    exact (List.mem_filter.mp h1).2
  have hext : (pySplitext f).2 ≠ "" := by
    intro h0
    rw [isImageName, h0] at hPf
    rw [show lstripDot ("".pyLower) = "" from rfl, hne0] at hPf
    exact Bool.false_ne_true hPf
  obtain ⟨bs, hbs, hbsnd⟩ := pySplitext_ext_structure hext
  have hsplitN := pySplitext_tagged (pySplitext f).1 hbs hbsnd
  have hPN : isImageName cfg ((pySplitext f).1 ++ "_" ++ "orig" ++ (pySplitext f).2) = true := by
    rw [isImageName, hsplitN]
    rw [isImageName] at hPf
    exact hPf
  have horigpat : hasTagPattern "orig"
      ((pySplitext f).1 ++ "_" ++ "orig" ++ (pySplitext f).2) = true := by
    have hsub : strContainsSub ((pySplitext f).1 ++ "_" ++ "orig" ++ (pySplitext f).2)
        ("_" ++ "orig" ++ ".") = true := by
      show seqHasSub ("_" ++ "orig" ++ ".").toList
        ((pySplitext f).1 ++ "_" ++ "orig" ++ (pySplitext f).2).toList = true
      have he : ((pySplitext f).1 ++ "_" ++ "orig" ++ (pySplitext f).2).toList =
          (pySplitext f).1.data ++ (("_" ++ "orig" ++ ".").toList ++ bs) := by
        show ((pySplitext f).1 ++ "_" ++ "orig" ++ (pySplitext f).2).data =
          (pySplitext f).1.data ++ (("_" ++ "orig" ++ ".").data ++ bs)
        rw [String.data_append, String.data_append, String.data_append, hbs,
          String.data_append, String.data_append]
        simp
      rw [he]
      exact seqHasSub_append_left _ (seqHasSub_here _ _)
    rw [hasTagPattern]
    rw [hsub]
    simp
  have htagN : (tagsOfName cfg
      ((pySplitext f).1 ++ "_" ++ "orig" ++ (pySplitext f).2)).contains "orig" = true := by
    apply contains_true_of_mem
    rw [tagsOfName]
    exact List.mem_filter.mpr ⟨mem_of_contains_true horig, horigpat⟩
  have hpatf : hasTagPattern "orig" f = false := by
    have hnil := htags
    rw [tagsOfName] at hnil
    have h1 := List.filter_eq_nil_iff.mp hnil "orig" (mem_of_contains_true horig)
    exact Bool.eq_false_iff.mpr h1
  have hadd : add_tag_to_file cfg files f "orig" =
      .ok ((pySplitext f).1 ++ "_" ++ "orig" ++ (pySplitext f).2,
        files.map (fun g =>
          if g == f then (pySplitext f).1 ++ "_" ++ "orig" ++ (pySplitext f).2 else g)) := by
    simp only [add_tag_to_file]
    rw [if_neg (not_not_intro horig), if_neg (not_not_intro (contains_true_of_mem hfmem))]
    rw [if_neg (by rw [hpatf]; simp)]
    rw [if_neg (by rw [hnew]; simp)]
  have hcontf : (tagsOfName cfg f).contains "orig" = false := by
    rw [htags]
    rfl
  constructor
  · simp only [orig_image, himg, List.filter_cons, hcontf, List.filter_nil, hadd]
    simp
  · have himg2 : (files.map (fun g =>
        if g == f then (pySplitext f).1 ++ "_" ++ "orig" ++ (pySplitext f).2 else g)).filter
        (fun g => isImageName cfg g) =
        [(pySplitext f).1 ++ "_" ++ "orig" ++ (pySplitext f).2] :=
      filter_map_rename himg hPN
    simp only [orig_image, himg2, List.filter_cons, htagN, List.filter_nil]
    simp

theorem c6_orig_image_idempotent_witness :
    orig_image ⟨[], [], [], [], [], ["orig"], ["png"]⟩ ["base", "cat"]
        ["cat.png", "cat.toml"] =
      .ok (["base", "cat", "cat_orig.png"], ["cat_orig.png", "cat.toml"]) ∧
    orig_image ⟨[], [], [], [], [], ["orig"], ["png"]⟩ ["base", "cat"]
        ["cat_orig.png", "cat.toml"] =
      .ok (["base", "cat", "cat_orig.png"], ["cat_orig.png", "cat.toml"]) := by
  have h := c6_orig_image_idempotent ⟨[], [], [], [], [], ["orig"], ["png"]⟩
      ["base", "cat"] ["cat.png", "cat.toml"] "cat.png"
      (by decide) (by decide) (by decide) (by decide) (by decide)
  exact ⟨h.1.trans (by rfl), h.2.trans (by rfl)⟩

/- Database sync lemmas: sorting, the existing_files dict, and per-phase
frame facts. -/

theorem insSorted_perm {α : Type} (le : α → α → Bool) (x : α) :
    ∀ l : List α, (insSorted le x l).Perm (x :: l)
  | [] => List.Perm.refl _
  | y :: ys => by
    rw [insSorted]
    by_cases h : le x y = true
    · rw [if_pos h]
    · rw [if_neg h]
      exact ((insSorted_perm le x ys).cons y).trans (List.Perm.swap x y ys)

theorem insSort_perm {α : Type} (le : α → α → Bool) :
    ∀ l : List α, (insSort le l).Perm l
  | [] => List.Perm.refl _
  | x :: xs => by
    rw [insSort]
    exact (insSorted_perm le x (insSort le xs)).trans ((insSort_perm le xs).cons x)

theorem dictInsert_fresh {α : Type} {m : List (String × α)} {k : String} (v : α)
    (h : m.any (fun p => p.1 == k) = false) : dictInsert m k v = m ++ [(k, v)] := by
  rw [dictInsert, if_neg (by rw [h]; simp)]

theorem filesDict_go_pairing :
    ∀ (l : List FileRow) (m : List (String × FileRow)),
      (∀ f ∈ l, m.any (fun p => p.1 == f.filename) = false) →
      (l.map (fun f => f.filename)).Nodup →
      l.foldl (fun m f => dictInsert m f.filename f) m =
        m ++ l.map (fun f => (f.filename, f))
  | [], m, _, _ => by simp
  | f :: rest, m, hfresh, hnd => by
    rw [List.foldl_cons, dictInsert_fresh f (hfresh f (List.mem_cons_self f rest))]
    rw [List.map_cons] at hnd
    have hnd2 := List.nodup_cons.mp hnd
    rw [filesDict_go_pairing rest (m ++ [(f.filename, f)]) ?fresh hnd2.2]
    · simp
    case fresh =>
      intro g hg
      rw [List.any_append]
      have h1 := hfresh g (List.mem_cons_of_mem f hg)
      rw [h1]
      have hne : g.filename ≠ f.filename := by
        intro he
        exact hnd2.1 (he ▸ List.mem_map_of_mem (fun q => q.filename) hg)
      simp
      exact fun he => hne he.symm

theorem filesDict_pairing {l : List FileRow}
    (hnd : (l.map (fun f => f.filename)).Nodup) :
    filesDict l = l.map (fun f => (f.filename, f)) := by
  rw [filesDict, filesDict_go_pairing l [] (by intro f _; rfl) hnd]
  simp

theorem pairing_find_mem {l : List FileRow} {r : FileRow} {nm : String}
    (hr : r ∈ l) (hnm : r.filename = nm) :
    ∃ p, (l.map (fun f => (f.filename, f))).find? (fun p => p.1 == nm) = some p ∧
      p.1 = nm ∧ p.2 ∈ l ∧ p.2.filename = nm := by
  induction l with
  | nil => exact absurd hr (List.not_mem_nil r)
  | cons a rest ih =>
    rw [List.map_cons]
    by_cases ha : a.filename = nm
    · have hbeq : ((a.filename, a).1 == nm) = true := beq_iff_eq.mpr ha
      refine ⟨(a.filename, a), ?_, ha, List.mem_cons_self a rest, ha⟩
      rw [List.find?_cons, hbeq]
    · have hbeq : ((a.filename, a).1 == nm) = false := by simpa using ha
      rw [List.find?_cons, hbeq]
      rcases List.mem_cons.mp hr with h1 | h2
      · exact absurd (h1 ▸ hnm) ha
      · obtain ⟨p, hfind, h1, h2, h3⟩ := ih h2
        exact ⟨p, hfind, h1, List.mem_cons_of_mem a h2, h3⟩

theorem mem_pairing {l : List FileRow} {p : String × FileRow}
    (h : p ∈ l.map (fun f => (f.filename, f))) :
    p.2 ∈ l ∧ p.1 = p.2.filename := by
  obtain ⟨f, hf, he⟩ := List.mem_map.mp h
  rw [← he]
  exact ⟨hf, rfl⟩

theorem sectionsUpsert_frame (db : Db) (iid : Nat) (nm : String) (t : Table) :
    (sectionsUpsert db iid nm t).folders = db.folders ∧
    (sectionsUpsert db iid nm t).imagesets = db.imagesets ∧
    (sectionsUpsert db iid nm t).files = db.files ∧
    (sectionsUpsert db iid nm t).tags = db.tags ∧
    (sectionsUpsert db iid nm t).nextImagesetId = db.nextImagesetId ∧
    (sectionsUpsert db iid nm t).nextFileId = db.nextFileId ∧
    (sectionsUpsert db iid nm t).nextTagId = db.nextTagId := by
  rw [sectionsUpsert]
  split <;> exact ⟨rfl, rfl, rfl, rfl, rfl, rfl, rfl⟩

theorem syncSectionsLoop_frame (iid : Nat) :
    ∀ (l : List (String × Entry)) (db : Db),
      (syncSectionsLoop iid l db).folders = db.folders ∧
      (syncSectionsLoop iid l db).imagesets = db.imagesets ∧
      (syncSectionsLoop iid l db).files = db.files ∧
      (syncSectionsLoop iid l db).tags = db.tags ∧
      (syncSectionsLoop iid l db).nextImagesetId = db.nextImagesetId ∧
      (syncSectionsLoop iid l db).nextFileId = db.nextFileId ∧
      (syncSectionsLoop iid l db).nextTagId = db.nextTagId
  | [], db => ⟨rfl, rfl, rfl, rfl, rfl, rfl, rfl⟩
  | p :: rest, db => by
    rw [syncSectionsLoop]
    have ih := fun d => syncSectionsLoop_frame iid rest d
    split
    · exact ih db
    · split
      · rename_i t heq
        obtain ⟨u1, u2, u3, u4, u5, u6, u7⟩ := sectionsUpsert_frame db iid p.1 t
        obtain ⟨i1, i2, i3, i4, i5, i6, i7⟩ := ih (sectionsUpsert db iid p.1 t)
        exact ⟨i1.trans u1, i2.trans u2, i3.trans u3, i4.trans u4,
          i5.trans u5, i6.trans u6, i7.trans u7⟩
      · exact ih db

theorem updateImagesetFields_frame (db : Db) (iid : Nat)
    (status edits needs source : Entry) (good_for prompt : Prim) :
    (updateImagesetFields db iid status edits needs source good_for prompt).folders = db.folders ∧
    (updateImagesetFields db iid status edits needs source good_for prompt).sections = db.sections ∧
    (updateImagesetFields db iid status edits needs source good_for prompt).files = db.files ∧
    (updateImagesetFields db iid status edits needs source good_for prompt).tags = db.tags ∧
    (updateImagesetFields db iid status edits needs source good_for prompt).nextFileId = db.nextFileId ∧
    (updateImagesetFields db iid status edits needs source good_for prompt).nextTagId = db.nextTagId :=
  ⟨rfl, rfl, rfl, rfl, rfl, rfl⟩

theorem updateCoverOrig_frame (db : Db) (iid : Nat) (co : Option String × Option String) :
    (updateCoverOrig db iid co).folders = db.folders ∧
    (updateCoverOrig db iid co).sections = db.sections ∧
    (updateCoverOrig db iid co).files = db.files ∧
    (updateCoverOrig db iid co).tags = db.tags ∧
    (updateCoverOrig db iid co).nextFileId = db.nextFileId ∧
    (updateCoverOrig db iid co).nextTagId = db.nextTagId ∧
    (updateCoverOrig db iid co).imagesets.length = db.imagesets.length := by
  rw [updateCoverOrig]
  split
  · exact ⟨rfl, rfl, rfl, rfl, rfl, rfl, by simp⟩
  · exact ⟨rfl, rfl, rfl, rfl, rfl, rfl, rfl⟩

theorem fileStep_frame (iid : Nat) (ifp : String) (imgExt : List String)
    (dict : List (String × FileRow)) (nm : String) (db : Db) :
    (fileStep iid ifp imgExt dict nm db).folders = db.folders ∧
    (fileStep iid ifp imgExt dict nm db).imagesets = db.imagesets ∧
    (fileStep iid ifp imgExt dict nm db).sections = db.sections ∧
    (fileStep iid ifp imgExt dict nm db).tags = db.tags ∧
    (fileStep iid ifp imgExt dict nm db).nextImagesetId = db.nextImagesetId ∧
    (fileStep iid ifp imgExt dict nm db).nextSectionId = db.nextSectionId ∧
    (fileStep iid ifp imgExt dict nm db).nextTagId = db.nextTagId ∧
    db.nextFileId ≤ (fileStep iid ifp imgExt dict nm db).nextFileId := by
  simp only [fileStep]
  split
  · split
    · exact ⟨rfl, rfl, rfl, rfl, rfl, rfl, rfl, Nat.le_refl _⟩
    · exact ⟨rfl, rfl, rfl, rfl, rfl, rfl, rfl, Nat.le_refl _⟩
  · exact ⟨rfl, rfl, rfl, rfl, rfl, rfl, rfl, Nat.le_succ _⟩

theorem fileStep_found_eq {dict : List (String × FileRow)} {nm : String}
    {p : String × FileRow} (iid : Nat) (ifp : String) (imgExt : List String) (db : Db)
    (hfind : dict.find? (fun q => q.1 == nm) = some p)
    (hfp : p.2.fullpath = ifp ++ "/" ++ nm) :
    fileStep iid ifp imgExt dict nm db = db := by
  simp only [fileStep, hfind]
  rw [if_pos (beq_iff_eq.mpr hfp)]

theorem syncFilesLoop_frame (iid : Nat) (ifp : String) (imgExt : List String)
    (dict : List (String × FileRow)) :
    ∀ (R : List String) (db : Db),
      (syncFilesLoop iid ifp imgExt dict R db).folders = db.folders ∧
      (syncFilesLoop iid ifp imgExt dict R db).imagesets = db.imagesets ∧
      (syncFilesLoop iid ifp imgExt dict R db).sections = db.sections ∧
      (syncFilesLoop iid ifp imgExt dict R db).tags = db.tags ∧
      (syncFilesLoop iid ifp imgExt dict R db).nextImagesetId = db.nextImagesetId ∧
      (syncFilesLoop iid ifp imgExt dict R db).nextSectionId = db.nextSectionId ∧
      (syncFilesLoop iid ifp imgExt dict R db).nextTagId = db.nextTagId ∧
      db.nextFileId ≤ (syncFilesLoop iid ifp imgExt dict R db).nextFileId
  | [], db => ⟨rfl, rfl, rfl, rfl, rfl, rfl, rfl, Nat.le_refl _⟩
  | nm :: rest, db => by
    rw [syncFilesLoop]
    obtain ⟨u1, u2, u3, u4, u5, u6, u7, u8⟩ := fileStep_frame iid ifp imgExt dict nm db
    obtain ⟨i1, i2, i3, i4, i5, i6, i7, i8⟩ :=
      syncFilesLoop_frame iid ifp imgExt dict rest (fileStep iid ifp imgExt dict nm db)
    exact ⟨i1.trans u1, i2.trans u2, i3.trans u3, i4.trans u4, i5.trans u5,
      i6.trans u6, i7.trans u7, Nat.le_trans u8 i8⟩

theorem syncFilesLoop_id (iid : Nat) (ifp : String) (imgExt : List String)
    (dict : List (String × FileRow)) :
    ∀ (R : List String) (db : Db),
      (∀ nm ∈ R, ∃ p, dict.find? (fun q => q.1 == nm) = some p ∧
        p.2.fullpath = ifp ++ "/" ++ nm) →
      syncFilesLoop iid ifp imgExt dict R db = db
  | [], db, _ => rfl
  | nm :: rest, db, h => by
    obtain ⟨p, hfind, hfp⟩ := h nm (List.mem_cons_self nm rest)
    rw [syncFilesLoop, fileStep_found_eq iid ifp imgExt db hfind hfp]
    exact syncFilesLoop_id iid ifp imgExt dict rest db
      (fun x hx => h x (List.mem_cons_of_mem nm hx))

theorem deleteStep_frame (found : List String) (p : String × FileRow) (db : Db) :
    (deleteStep found p db).folders = db.folders ∧
    (deleteStep found p db).imagesets = db.imagesets ∧
    (deleteStep found p db).sections = db.sections ∧
    (deleteStep found p db).nextImagesetId = db.nextImagesetId ∧
    (deleteStep found p db).nextSectionId = db.nextSectionId ∧
    (deleteStep found p db).nextFileId = db.nextFileId ∧
    (deleteStep found p db).nextTagId = db.nextTagId ∧
    (∀ q ∈ (deleteStep found p db).files, q ∈ db.files) ∧
    (∀ t ∈ (deleteStep found p db).tags, t ∈ db.tags) := by
  rw [deleteStep]
  split
  · exact ⟨rfl, rfl, rfl, rfl, rfl, rfl, rfl, fun q hq => hq, fun t ht => ht⟩
  · exact ⟨rfl, rfl, rfl, rfl, rfl, rfl, rfl,
      fun q hq => List.mem_of_mem_filter hq, fun t ht => List.mem_of_mem_filter ht⟩

theorem deleteMissingLoop_frame (found : List String) :
    ∀ (E : List (String × FileRow)) (db : Db),
      (deleteMissingLoop found E db).folders = db.folders ∧
      (deleteMissingLoop found E db).imagesets = db.imagesets ∧
      (deleteMissingLoop found E db).sections = db.sections ∧
      (deleteMissingLoop found E db).nextImagesetId = db.nextImagesetId ∧
      (deleteMissingLoop found E db).nextSectionId = db.nextSectionId ∧
      (deleteMissingLoop found E db).nextFileId = db.nextFileId ∧
      (deleteMissingLoop found E db).nextTagId = db.nextTagId ∧
      (∀ q ∈ (deleteMissingLoop found E db).files, q ∈ db.files) ∧
      (∀ t ∈ (deleteMissingLoop found E db).tags, t ∈ db.tags)
  | [], db => ⟨rfl, rfl, rfl, rfl, rfl, rfl, rfl, fun q hq => hq, fun t ht => ht⟩
  | p :: rest, db => by
    rw [deleteMissingLoop]
    obtain ⟨u1, u2, u3, u4, u5, u6, u7, u8, u9⟩ := deleteStep_frame found p db
    obtain ⟨i1, i2, i3, i4, i5, i6, i7, i8, i9⟩ :=
      deleteMissingLoop_frame found rest (deleteStep found p db)
    exact ⟨i1.trans u1, i2.trans u2, i3.trans u3, i4.trans u4, i5.trans u5,
      i6.trans u6, i7.trans u7, fun q hq => u8 q (i8 q hq), fun t ht => u9 t (i9 t ht)⟩

theorem deleteMissingLoop_id (found : List String) :
    ∀ (E : List (String × FileRow)) (db : Db),
      (∀ p ∈ E, found.contains p.1 = true) →
      deleteMissingLoop found E db = db
  | [], db, _ => rfl
  | p :: rest, db, h => by
    rw [deleteMissingLoop, deleteStep, if_pos (h p (List.mem_cons_self p rest))]
    exact deleteMissingLoop_id found rest db (fun x hx => h x (List.mem_cons_of_mem p hx))

theorem foldl_insertTag_len (fid : Nat) :
    ∀ (L : List String) (d0 : Db),
      ((L.foldl (fun d tg => insertTag d fid tg) d0).tags).length =
        d0.tags.length + L.length
  | [], d0 => rfl
  | tg :: rest, d0 => by
    rw [List.foldl_cons, foldl_insertTag_len fid rest (insertTag d0 fid tg)]
    rw [insertTag]
    simp
    omega

theorem foldl_insertTag_count_other {fid fid2 : Nat} (hne : fid2 ≠ fid) :
    ∀ (L : List String) (d0 : Db),
      tagCount (L.foldl (fun d tg => insertTag d fid tg) d0).tags fid2 =
        tagCount d0.tags fid2
  | [], d0 => rfl
  | tg :: rest, d0 => by
    rw [List.foldl_cons, foldl_insertTag_count_other hne rest (insertTag d0 fid tg)]
    rw [insertTag, tagCount, tagCount]
    rw [List.filter_append]
    have hrow : (([⟨d0.nextTagId, fid, tg⟩] : List TagRow).filter
        (fun t => t.imagesetfile_id == fid2)) = [] := by
      rw [List.filter_cons]
      rw [if_neg (by simp; exact fun he => hne he.symm)]
      rfl
    rw [hrow]
    simp

theorem foldl_insertTag_count_self (fid : Nat) :
    ∀ (L : List String) (d0 : Db),
      tagCount (L.foldl (fun d tg => insertTag d fid tg) d0).tags fid =
        tagCount d0.tags fid + L.length
  | [], d0 => rfl
  | tg :: rest, d0 => by
    rw [List.foldl_cons, foldl_insertTag_count_self fid rest (insertTag d0 fid tg)]
    rw [insertTag, tagCount, tagCount]
    rw [List.filter_append]
    have hrow : (([⟨d0.nextTagId, fid, tg⟩] : List TagRow).filter
        (fun t => t.imagesetfile_id == fid)) = [⟨d0.nextTagId, fid, tg⟩] := by
      rw [List.filter_cons, if_pos (by simp)]
      rfl
    rw [hrow]
    simp
    omega

theorem foldl_insertTag_frame (fid : Nat) :
    ∀ (L : List String) (d0 : Db),
      ((L.foldl (fun d tg => insertTag d fid tg) d0).folders = d0.folders) ∧
      ((L.foldl (fun d tg => insertTag d fid tg) d0).imagesets = d0.imagesets) ∧
      ((L.foldl (fun d tg => insertTag d fid tg) d0).sections = d0.sections) ∧
      ((L.foldl (fun d tg => insertTag d fid tg) d0).files = d0.files) ∧
      ((L.foldl (fun d tg => insertTag d fid tg) d0).nextImagesetId = d0.nextImagesetId) ∧
      ((L.foldl (fun d tg => insertTag d fid tg) d0).nextSectionId = d0.nextSectionId) ∧
      ((L.foldl (fun d tg => insertTag d fid tg) d0).nextFileId = d0.nextFileId)
  | [], d0 => ⟨rfl, rfl, rfl, rfl, rfl, rfl, rfl⟩
  | tg :: rest, d0 => by
    rw [List.foldl_cons]
    obtain ⟨i1, i2, i3, i4, i5, i6, i7⟩ :=
      foldl_insertTag_frame fid rest (insertTag d0 fid tg)
    exact ⟨i1, i2, i3, i4, i5, i6, i7⟩

theorem filter_not_count_zero (fid : Nat) (l : List TagRow) :
    tagCount (l.filter (fun t => !(t.imagesetfile_id == fid))) fid = 0 := by
  rw [tagCount]
  have h : (l.filter (fun t => !(t.imagesetfile_id == fid))).filter
      (fun t => t.imagesetfile_id == fid) = [] := by
    rw [List.filter_eq_nil_iff]
    intro t ht
    have h2 := List.of_mem_filter ht
    simp at h2
    simp [h2]
  rw [h]
  rfl

theorem filter_not_count_other {fid fid2 : Nat} (hne : fid2 ≠ fid) (l : List TagRow) :
    tagCount (l.filter (fun t => !(t.imagesetfile_id == fid))) fid2 =
      tagCount l fid2 := by
  rw [tagCount, List.filter_filter, tagCount]
  congr 1
  apply List.filter_congr
  intro t _
  by_cases h : t.imagesetfile_id = fid2
  · have hf : (t.imagesetfile_id == fid) = false := by
      simp
      exact fun he => hne (by rw [← h]; exact he)
    simp [h, hf]
    exact hne
  · simp [h]

theorem setTagsForFile_len (db : Db) (fid : Nat) (L : List String) :
    (setTagsForFile db fid L).tags.length =
      (db.tags.filter (fun t => !(t.imagesetfile_id == fid))).length + L.length := by
  rw [setTagsForFile, foldl_insertTag_len]

theorem setTagsForFile_count_self (db : Db) (fid : Nat) (L : List String) :
    tagCount (setTagsForFile db fid L).tags fid = L.length := by
  rw [setTagsForFile, foldl_insertTag_count_self]
  have h := filter_not_count_zero fid db.tags
  simp only [tagCount] at h ⊢
  rw [h]
  omega

theorem setTagsForFile_count_other {fid fid2 : Nat} (hne : fid2 ≠ fid)
    (db : Db) (L : List String) :
    tagCount (setTagsForFile db fid L).tags fid2 = tagCount db.tags fid2 := by
  rw [setTagsForFile, foldl_insertTag_count_other hne]
  exact filter_not_count_other hne db.tags

theorem setTagsForFile_frame (db : Db) (fid : Nat) (L : List String) :
    (setTagsForFile db fid L).folders = db.folders ∧
    (setTagsForFile db fid L).imagesets = db.imagesets ∧
    (setTagsForFile db fid L).sections = db.sections ∧
    (setTagsForFile db fid L).files = db.files ∧
    (setTagsForFile db fid L).nextImagesetId = db.nextImagesetId ∧
    (setTagsForFile db fid L).nextSectionId = db.nextSectionId ∧
    (setTagsForFile db fid L).nextFileId = db.nextFileId := by
  rw [setTagsForFile]
  exact foldl_insertTag_frame fid L _

theorem tagStep_frame (ft : List String) (f : FileRow) (db : Db) :
    (tagStep ft f db).folders = db.folders ∧
    (tagStep ft f db).imagesets = db.imagesets ∧
    (tagStep ft f db).sections = db.sections ∧
    (tagStep ft f db).files = db.files ∧
    (tagStep ft f db).nextImagesetId = db.nextImagesetId ∧
    (tagStep ft f db).nextSectionId = db.nextSectionId ∧
    (tagStep ft f db).nextFileId = db.nextFileId := by
  simp only [tagStep]
  split
  · exact ⟨rfl, rfl, rfl, rfl, rfl, rfl, rfl⟩
  · exact setTagsForFile_frame db f.id (computeTags ft f.filename)

theorem tagStep_len (ft : List String) (f : FileRow) (db : Db)
    (hcnt : (computeTags ft f.filename).isEmpty = false →
      tagCount db.tags f.id = (computeTags ft f.filename).length) :
    (tagStep ft f db).tags.length = db.tags.length := by
  simp only [tagStep]
  split
  · rfl
  · rename_i hne
    have hne2 : (computeTags ft f.filename).isEmpty = false :=
      Bool.not_eq_true _ ▸ Bool.of_not_eq_true hne
    rw [setTagsForFile_len]
    have h1 := hcnt hne2
    have h2 := @List.length_eq_length_filter_add _ db.tags
      (fun t => t.imagesetfile_id == f.id)
    simp only [tagCount] at h1
    omega

theorem tagStep_count_other (ft : List String) (f : FileRow) (db : Db)
    {fid2 : Nat} (hne : fid2 ≠ f.id) :
    tagCount (tagStep ft f db).tags fid2 = tagCount db.tags fid2 := by
  simp only [tagStep]
  split
  · rfl
  · exact setTagsForFile_count_other hne db _

theorem tagStep_count_self (ft : List String) (f : FileRow) (db : Db)
    (hne : (computeTags ft f.filename).isEmpty = false) :
    tagCount (tagStep ft f db).tags f.id = (computeTags ft f.filename).length := by
  simp only [tagStep]
  rw [if_neg (by rw [hne]; simp)]
  exact setTagsForFile_count_self db f.id _

theorem tagsLoop_frame (ft : List String) :
    ∀ (S : List FileRow) (db : Db),
      (tagsLoop ft S db).folders = db.folders ∧
      (tagsLoop ft S db).imagesets = db.imagesets ∧
      (tagsLoop ft S db).sections = db.sections ∧
      (tagsLoop ft S db).files = db.files ∧
      (tagsLoop ft S db).nextImagesetId = db.nextImagesetId ∧
      (tagsLoop ft S db).nextSectionId = db.nextSectionId ∧
      (tagsLoop ft S db).nextFileId = db.nextFileId
  | [], db => ⟨rfl, rfl, rfl, rfl, rfl, rfl, rfl⟩
  | f :: rest, db => by
    rw [tagsLoop]
    obtain ⟨u1, u2, u3, u4, u5, u6, u7⟩ := tagStep_frame ft f db
    obtain ⟨i1, i2, i3, i4, i5, i6, i7⟩ := tagsLoop_frame ft rest (tagStep ft f db)
    exact ⟨i1.trans u1, i2.trans u2, i3.trans u3, i4.trans u4, i5.trans u5,
      i6.trans u6, i7.trans u7⟩

theorem tagsLoop_count_frame (ft : List String) {fid2 : Nat} :
    ∀ (S : List FileRow) (db : Db),
      (∀ f ∈ S, f.id ≠ fid2) →
      tagCount (tagsLoop ft S db).tags fid2 = tagCount db.tags fid2
  | [], db, _ => rfl
  | f :: rest, db, h => by
    rw [tagsLoop,
      tagsLoop_count_frame ft rest (tagStep ft f db)
        (fun g hg => h g (List.mem_cons_of_mem f hg)),
      tagStep_count_other ft f db (fun he => h f (List.mem_cons_self f rest) he.symm)]

theorem tagsLoop_len (ft : List String) :
    ∀ (S : List FileRow) (db : Db),
      (S.map (fun f => f.id)).Nodup →
      (∀ f ∈ S, (computeTags ft f.filename).isEmpty = false →
        tagCount db.tags f.id = (computeTags ft f.filename).length) →
      (tagsLoop ft S db).tags.length = db.tags.length
  | [], db, _, _ => rfl
  | f :: rest, db, hnd, hh => by
    rw [tagsLoop]
    rw [List.map_cons] at hnd
    have hnd2 := List.nodup_cons.mp hnd
    have hrest : ∀ g ∈ rest, (computeTags ft g.filename).isEmpty = false →
        tagCount (tagStep ft f db).tags g.id = (computeTags ft g.filename).length := by
      intro g hg hge
      have hgne : g.id ≠ f.id := by
        intro he
        exact hnd2.1 (he ▸ List.mem_map_of_mem (fun q => q.id) hg)
      rw [tagStep_count_other ft f db hgne]
      exact hh g (List.mem_cons_of_mem f hg) hge
    rw [tagsLoop_len ft rest (tagStep ft f db) hnd2.2 hrest]
    exact tagStep_len ft f db (hh f (List.mem_cons_self f rest))

theorem tagsLoop_establish (ft : List String) :
    ∀ (S : List FileRow) (db : Db),
      (S.map (fun f => f.id)).Nodup →
      ∀ f ∈ S, (computeTags ft f.filename).isEmpty = false →
      tagCount (tagsLoop ft S db).tags f.id = (computeTags ft f.filename).length
  | [], _, _, f, hf, _ => absurd hf (List.not_mem_nil f)
  | g :: rest, db, hnd, f, hf, hne => by
    rw [tagsLoop]
    rw [List.map_cons] at hnd
    have hnd2 := List.nodup_cons.mp hnd
    rcases List.mem_cons.mp hf with h1 | h2
    · subst h1
      rw [tagsLoop_count_frame ft rest (tagStep ft f db) ?hrest]
      · exact tagStep_count_self ft f db hne
      case hrest =>
        intro x hx he
        exact hnd2.1 (he ▸ List.mem_map_of_mem (fun q => q.id) hx)
    · exact tagsLoop_establish ft rest (tagStep ft g db) hnd2.2 f h2 hne

theorem updateFileRow_ids (d : Db) (fid : Nat) (fp ft : String) :
    (updateFileRow d fid fp ft).files.map (fun q => q.id) =
      d.files.map (fun q => q.id) := by
  rw [updateFileRow]
  simp only
  rw [List.map_map]
  apply List.map_congr_left
  intro q _
  simp only [Function.comp]
  split
  · rfl
  · rfl

theorem updateFileRow_nextFileId (d : Db) (fid : Nat) (fp ft : String) :
    (updateFileRow d fid fp ft).nextFileId = d.nextFileId := rfl

theorem updateFileRow_mem_ne {d : Db} {fid : Nat} {fp ft : String} {q : FileRow}
    (hq : q ∈ d.files) (hne : q.id ≠ fid) :
    q ∈ (updateFileRow d fid fp ft).files := by
  refine List.mem_map.mpr ⟨q, hq, ?_⟩
  rw [if_neg (by simpa using hne)]

theorem updateFileRow_mem_eq {d : Db} {fid : Nat} {fp ft : String} {q : FileRow}
    (hq : q ∈ d.files) (he : q.id = fid) :
    ({ q with fullpath := fp, file_type := ft } : FileRow) ∈
      (updateFileRow d fid fp ft).files := by
  refine List.mem_map.mpr ⟨q, hq, ?_⟩
  rw [if_pos (beq_iff_eq.mpr he)]

theorem updateFileRow_mem_elim {d : Db} {fid : Nat} {fp ft : String} {q2 : FileRow}
    (h : q2 ∈ (updateFileRow d fid fp ft).files) :
    ∃ q ∈ d.files, q2.id = q.id ∧ q2.imageset_id = q.imageset_id ∧
      q2.filename = q.filename := by
  obtain ⟨q, hq, he⟩ := List.mem_map.mp h
  refine ⟨q, hq, ?_⟩
  rw [← he]
  split
  · exact ⟨rfl, rfl, rfl⟩
  · exact ⟨rfl, rfl, rfl⟩

theorem files_id_inj {l : List FileRow} (hnd : (l.map (fun q => q.id)).Nodup)
    {a b : FileRow} (ha : a ∈ l) (hb : b ∈ l) (he : a.id = b.id) : a = b :=
  List.inj_on_of_nodup_map hnd ha hb he

theorem syncFilesLoop_run (iid : Nat) (ifp : String) (imgExt : List String)
    (dict : List (String × FileRow)) (listing : List String) :
    ∀ (R : List String) (d : Db),
      R.Nodup →
      (∀ p ∈ dict, p.2.imageset_id = iid ∧ p.2.filename = p.1) →
      (∀ p ∈ dict, p.1 ∈ R → ∃ q ∈ d.files, q.id = p.2.id ∧
        q.imageset_id = iid ∧ q.filename = p.1 ∧ q.fullpath = p.2.fullpath) →
      (d.files.map (fun q => q.id)).Nodup →
      (∀ q ∈ d.files, q.id < d.nextFileId) →
      (∀ q ∈ d.files, ∀ q2 ∈ d.files, q.imageset_id = iid → q2.imageset_id = iid →
        q.filename = q2.filename → q.id = q2.id) →
      (∀ nm ∈ R, dict.find? (fun p => p.1 == nm) = none →
        ∀ q ∈ d.files, q.imageset_id = iid → q.filename ≠ nm) →
      (∀ p ∈ dict, p.1 ∉ listing → ∃ q ∈ d.files, q.id = p.2.id ∧
        q.imageset_id = iid ∧ q.filename = p.1) →
      (∀ nm ∈ R, nm ∈ listing) →
      (∀ nm ∈ R, ∃ q ∈ (syncFilesLoop iid ifp imgExt dict R d).files,
        q.imageset_id = iid ∧ q.filename = nm ∧ q.fullpath = ifp ++ "/" ++ nm) ∧
      (∀ q ∈ (syncFilesLoop iid ifp imgExt dict R d).files,
        (∃ q0 ∈ d.files, q.id = q0.id ∧ q.imageset_id = q0.imageset_id ∧
          q.filename = q0.filename) ∨ (q.imageset_id = iid ∧ q.filename ∈ R)) ∧
      ((syncFilesLoop iid ifp imgExt dict R d).files.map (fun q => q.id)).Nodup ∧
      (∀ q ∈ (syncFilesLoop iid ifp imgExt dict R d).files,
        q.id < (syncFilesLoop iid ifp imgExt dict R d).nextFileId) ∧
      (∀ q ∈ (syncFilesLoop iid ifp imgExt dict R d).files,
        ∀ q2 ∈ (syncFilesLoop iid ifp imgExt dict R d).files,
        q.imageset_id = iid → q2.imageset_id = iid → q.filename = q2.filename →
        q.id = q2.id) ∧
      (∀ p ∈ dict, p.1 ∉ listing →
        ∃ q ∈ (syncFilesLoop iid ifp imgExt dict R d).files, q.id = p.2.id ∧
          q.imageset_id = iid ∧ q.filename = p.1) ∧
      (∀ q ∈ d.files, q.imageset_id = iid → q.filename ∉ R →
        q ∈ (syncFilesLoop iid ifp imgExt dict R d).files)
  | [], d, _, _, _, H4, H5, H6, _, H8, _ =>
    ⟨fun nm h => absurd h (List.not_mem_nil nm),
     fun q hq => Or.inl ⟨q, hq, rfl, rfl, rfl⟩,
     H4, H5, H6, H8,
     fun q hq _ _ => hq⟩
  | nm :: rest, d, H1, H2, H3, H4, H5, H6, H7, H8, H9 => by
    rw [syncFilesLoop]
    have hnd := List.nodup_cons.mp H1
    cases hfind : dict.find? (fun q => q.1 == nm) with
    | some p =>
      have hp1 : p.1 = nm := by
        have h := List.find?_some hfind
        simpa using h
      have hpmem : p ∈ dict := List.mem_of_find?_eq_some hfind
      obtain ⟨hpi, hpf⟩ := H2 p hpmem
      obtain ⟨q, hq, hqid, hqi, hqf, hqp⟩ :=
        H3 p hpmem (by rw [hp1]; exact List.mem_cons_self nm rest)
      by_cases hfp : p.2.fullpath = ifp ++ "/" ++ nm
      · rw [fileStep_found_eq iid ifp imgExt d hfind hfp]
        obtain ⟨G1, G2, G3, G4, G5, G6, G7⟩ :=
          syncFilesLoop_run iid ifp imgExt dict listing rest d hnd.2 H2
            (fun p2 hp2 hm2 => H3 p2 hp2 (List.mem_cons_of_mem nm hm2)) H4 H5 H6
            (fun nm2 hm2 => H7 nm2 (List.mem_cons_of_mem nm hm2))
            H8 (fun nm2 hm2 => H9 nm2 (List.mem_cons_of_mem nm hm2))
        refine ⟨?_, ?_, G3, G4, G5, G6, ?_⟩
        · intro nm2 hm2
          rcases List.mem_cons.mp hm2 with h1 | h2
          · rw [h1]
            have hqnotin : q.filename ∉ rest := by
              rw [hqf, hp1]
              exact hnd.1
            exact ⟨q, G7 q hq hqi hqnotin, hqi, by rw [hqf, hp1], by rw [hqp, hfp]⟩
          · exact G1 nm2 h2
        · intro q2 hq2
          rcases G2 q2 hq2 with hL | hR
          · exact Or.inl hL
          · exact Or.inr ⟨hR.1, List.mem_cons_of_mem nm hR.2⟩
        · intro q2 hq2 hqi2 hnin
          exact G7 q2 hq2 hqi2 (fun hin => hnin (List.mem_cons_of_mem nm hin))
      · have hstep : fileStep iid ifp imgExt dict nm d =
            updateFileRow d p.2.id (ifp ++ "/" ++ nm) (fileTypeOf imgExt nm) := by
          simp only [fileStep, hfind]
          rw [if_neg (by simpa using hfp)]
        rw [hstep]
        set d2 := updateFileRow d p.2.id (ifp ++ "/" ++ nm) (fileTypeOf imgExt nm) with hd2
        have hq2mem : ({ q with fullpath := ifp ++ "/" ++ nm, file_type := fileTypeOf imgExt nm } : FileRow) ∈ d2.files :=
          updateFileRow_mem_eq hq hqid
        have hids2 : d2.files.map (fun r => r.id) = d.files.map (fun r => r.id) :=
          updateFileRow_ids d p.2.id (ifp ++ "/" ++ nm) (fileTypeOf imgExt nm)
        have H4b : (d2.files.map (fun r => r.id)).Nodup := by
          rw [hids2]
          exact H4
        have H5b : ∀ r ∈ d2.files, r.id < d2.nextFileId := by
          intro r hr
          obtain ⟨q0, hq0, he1, _, _⟩ := updateFileRow_mem_elim hr
          rw [he1]
          exact H5 q0 hq0
        have H6b : ∀ a ∈ d2.files, ∀ b ∈ d2.files, a.imageset_id = iid →
            b.imageset_id = iid → a.filename = b.filename → a.id = b.id := by
          intro a ha b hb hai hbi hab
          obtain ⟨a0, ha0, ha1, ha2, ha3⟩ := updateFileRow_mem_elim ha
          obtain ⟨b0, hb0, hb1, hb2, hb3⟩ := updateFileRow_mem_elim hb
          rw [ha1, hb1]
          exact H6 a0 ha0 b0 hb0 (by rw [← ha2]; exact hai) (by rw [← hb2]; exact hbi)
            (by rw [← ha3, ← hb3]; exact hab)
        have hsurv : ∀ {q2 : FileRow}, q2 ∈ d.files → q2.filename ≠ nm →
            q2 ∈ d2.files := by
          intro q2 hq2 hne2
          refine updateFileRow_mem_ne hq2 ?_
          intro heid
          have heq : q2 = q := files_id_inj H4 hq2 hq (heid.trans hqid.symm)
          exact hne2 (by rw [heq, hqf, hp1])
        have H3b : ∀ p2 ∈ dict, p2.1 ∈ rest → ∃ r ∈ d2.files, r.id = p2.2.id ∧
            r.imageset_id = iid ∧ r.filename = p2.1 ∧ r.fullpath = p2.2.fullpath := by
          intro p2 hp2 hm2
          obtain ⟨q2, hq2, h1, h2, h3, h4⟩ := H3 p2 hp2 (List.mem_cons_of_mem nm hm2)
          have hne2 : q2.filename ≠ nm := by
            rw [h3]
            intro he
            exact hnd.1 (he ▸ hm2)
          exact ⟨q2, hsurv hq2 hne2, h1, h2, h3, h4⟩
        have H7b : ∀ nm2 ∈ rest, dict.find? (fun p => p.1 == nm2) = none →
            ∀ r ∈ d2.files, r.imageset_id = iid → r.filename ≠ nm2 := by
          intro nm2 hm2 hfind2 r hr hri
          obtain ⟨q0, hq0, _, h2, h3⟩ := updateFileRow_mem_elim hr
          rw [h3]
          exact H7 nm2 (List.mem_cons_of_mem nm hm2) hfind2 q0 hq0 (by rw [← h2]; exact hri)
        have H8b : ∀ p2 ∈ dict, p2.1 ∉ listing → ∃ r ∈ d2.files, r.id = p2.2.id ∧
            r.imageset_id = iid ∧ r.filename = p2.1 := by
          intro p2 hp2 hnl
          obtain ⟨q2, hq2, h1, h2, h3⟩ := H8 p2 hp2 hnl
          have hne2 : q2.filename ≠ nm := by
            rw [h3]
            intro he
            exact hnl (he ▸ H9 nm (List.mem_cons_self nm rest))
          exact ⟨q2, hsurv hq2 hne2, h1, h2, h3⟩
        obtain ⟨G1, G2, G3, G4, G5, G6, G7⟩ :=
          syncFilesLoop_run iid ifp imgExt dict listing rest d2 hnd.2 H2 H3b H4b H5b H6b
            H7b H8b (fun nm2 hm2 => H9 nm2 (List.mem_cons_of_mem nm hm2))
        refine ⟨?_, ?_, G3, G4, G5, G6, ?_⟩
        · intro nm2 hm2
          rcases List.mem_cons.mp hm2 with h1 | h2
          · rw [h1]
            have hnotin : ({ q with fullpath := ifp ++ "/" ++ nm, file_type := fileTypeOf imgExt nm } : FileRow).filename ∉ rest := by
              show q.filename ∉ rest
              rw [hqf, hp1]
              exact hnd.1
            exact ⟨{ q with fullpath := ifp ++ "/" ++ nm, file_type := fileTypeOf imgExt nm },
              G7 _ hq2mem hqi hnotin, hqi,
              by rw [show ({ q with fullpath := ifp ++ "/" ++ nm, file_type := fileTypeOf imgExt nm } : FileRow).filename = q.filename from rfl, hqf, hp1], rfl⟩
          · exact G1 nm2 h2
        · intro q2 hq2
          rcases G2 q2 hq2 with hL | hR
          · obtain ⟨q0, hq0, h1, h2, h3⟩ := hL
            obtain ⟨q00, hq00, g1, g2, g3⟩ := updateFileRow_mem_elim hq0
            exact Or.inl ⟨q00, hq00, h1.trans g1, h2.trans g2, h3.trans g3⟩
          · exact Or.inr ⟨hR.1, List.mem_cons_of_mem nm hR.2⟩
        · intro q2 hq2 hqi2 hnin
          have hne2 : q2.filename ≠ nm :=
            fun he => hnin (by rw [he]; exact List.mem_cons_self nm rest)
          exact G7 q2 (hsurv hq2 hne2) hqi2 (fun hin => hnin (List.mem_cons_of_mem nm hin))
    | none =>
      have hstep : fileStep iid ifp imgExt dict nm d =
          createFile d iid nm (ifp ++ "/" ++ nm) (pySplitext nm).2 (fileTypeOf imgExt nm) := by
        simp only [fileStep, hfind]
      rw [hstep]
      set N : FileRow := ⟨d.nextFileId, iid, nm, ifp ++ "/" ++ nm, (pySplitext nm).2,
        fileTypeOf imgExt nm⟩ with hN
      set d2 := createFile d iid nm (ifp ++ "/" ++ nm) (pySplitext nm).2
        (fileTypeOf imgExt nm) with hd2
      have hfiles2 : d2.files = d.files ++ [N] := rfl
      have hnext2 : d2.nextFileId = d.nextFileId + 1 := rfl
      have hNmem : N ∈ d2.files := by
        rw [hfiles2]
        exact List.mem_append_right _ (List.mem_cons_self N [])
      have hmemofold : ∀ {q2 : FileRow}, q2 ∈ d.files → q2 ∈ d2.files := by
        intro q2 h
        rw [hfiles2]
        exact List.mem_append_left _ h
      have hmem2 : ∀ {q2 : FileRow}, q2 ∈ d2.files → q2 ∈ d.files ∨ q2 = N := by
        intro q2 h
        rw [hfiles2] at h
        rcases List.mem_append.mp h with h1 | h2
        · exact Or.inl h1
        · exact Or.inr (List.mem_singleton.mp h2)
      have hnew_name : ∀ q2 ∈ d.files, q2.imageset_id = iid → q2.filename ≠ nm :=
        H7 nm (List.mem_cons_self nm rest) hfind
      have H3b : ∀ p2 ∈ dict, p2.1 ∈ rest → ∃ r ∈ d2.files, r.id = p2.2.id ∧
          r.imageset_id = iid ∧ r.filename = p2.1 ∧ r.fullpath = p2.2.fullpath := by
        intro p2 hp2 hm2
        obtain ⟨q2, hq2, h1, h2, h3, h4⟩ := H3 p2 hp2 (List.mem_cons_of_mem nm hm2)
        exact ⟨q2, hmemofold hq2, h1, h2, h3, h4⟩
      have H4b : (d2.files.map (fun r => r.id)).Nodup := by
        rw [hfiles2, List.map_append]
        refine List.Nodup.append H4 (List.nodup_singleton _) ?_
        intro x hx hy
        simp only [List.map_cons, List.map_nil, List.mem_singleton] at hy
        obtain ⟨q0, hq0, he⟩ := List.mem_map.mp hx
        have hlt := H5 q0 hq0
        rw [he, hy] at hlt
        exact Nat.lt_irrefl _ hlt
      have H5b : ∀ r ∈ d2.files, r.id < d2.nextFileId := by
        intro r h
        rcases hmem2 h with h1 | h2
        · exact Nat.lt_trans (H5 r h1) (by rw [hnext2]; exact Nat.lt_succ_self _)
        · rw [h2, hnext2]
          exact Nat.lt_succ_self _
      have H6b : ∀ a ∈ d2.files, ∀ b ∈ d2.files, a.imageset_id = iid →
          b.imageset_id = iid → a.filename = b.filename → a.id = b.id := by
        intro a ha b hb hai hbi hab
        rcases hmem2 ha with ha1 | ha2 <;> rcases hmem2 hb with hb1 | hb2
        · exact H6 a ha1 b hb1 hai hbi hab
        · exact absurd (by rw [hab, hb2]) (hnew_name a ha1 hai)
        · exact absurd (by rw [← hab, ha2]) (hnew_name b hb1 hbi)
        · rw [ha2, hb2]
      have H7b : ∀ nm2 ∈ rest, dict.find? (fun p => p.1 == nm2) = none →
          ∀ r ∈ d2.files, r.imageset_id = iid → r.filename ≠ nm2 := by
        intro nm2 hm2 hfind2 r h hri
        rcases hmem2 h with h1 | hE
        · exact H7 nm2 (List.mem_cons_of_mem nm hm2) hfind2 r h1 hri
        · rw [hE]
          show nm ≠ nm2
          intro he
          exact hnd.1 (he ▸ hm2)
      have H8b : ∀ p2 ∈ dict, p2.1 ∉ listing → ∃ r ∈ d2.files, r.id = p2.2.id ∧
          r.imageset_id = iid ∧ r.filename = p2.1 := by
        intro p2 hp2 hnl
        obtain ⟨q2, hq2, h1, h2, h3⟩ := H8 p2 hp2 hnl
        exact ⟨q2, hmemofold hq2, h1, h2, h3⟩
      obtain ⟨G1, G2, G3, G4, G5, G6, G7⟩ :=
        syncFilesLoop_run iid ifp imgExt dict listing rest d2 hnd.2 H2 H3b H4b H5b H6b
          H7b H8b (fun nm2 hm2 => H9 nm2 (List.mem_cons_of_mem nm hm2))
      refine ⟨?_, ?_, G3, G4, G5, G6, ?_⟩
      · intro nm2 hm2
        rcases List.mem_cons.mp hm2 with h1 | h2
        · rw [h1]
          have hnotin : N.filename ∉ rest := by
            show nm ∉ rest
            exact hnd.1
          exact ⟨N, G7 N hNmem rfl hnotin, rfl, rfl, rfl⟩
        · exact G1 nm2 h2
      · intro q2 hq2
        rcases G2 q2 hq2 with hL | hR
        · obtain ⟨q0, hq0, h1, h2, h3⟩ := hL
          rcases hmem2 hq0 with ho | hE
          · exact Or.inl ⟨q0, ho, h1, h2, h3⟩
          · refine Or.inr ⟨?_, ?_⟩
            · rw [h2, hE]
            · rw [h3, hE]
              exact List.mem_cons_self nm rest
        · exact Or.inr ⟨hR.1, List.mem_cons_of_mem nm hR.2⟩
      · intro q2 h hqi2 hnin
        exact G7 q2 (hmemofold h) hqi2 (fun hin => hnin (List.mem_cons_of_mem nm hin))

theorem deleteMissingLoop_files_sublist (found : List String) :
    ∀ (E : List (String × FileRow)) (d : Db),
      (deleteMissingLoop found E d).files.Sublist d.files
  | [], d => List.Sublist.refl _
  | p :: rest, d => by
    rw [deleteMissingLoop]
    refine List.Sublist.trans
      (deleteMissingLoop_files_sublist found rest (deleteStep found p d)) ?_
    rw [deleteStep]
    split
    · exact List.Sublist.refl _
    · exact List.filter_sublist _

theorem deleteMissingLoop_keep (found : List String) :
    ∀ (E : List (String × FileRow)) (d : Db) (q : FileRow),
      q ∈ d.files → (∀ p ∈ E, p.1 ∉ found → q.id ≠ p.2.id) →
      q ∈ (deleteMissingLoop found E d).files
  | [], _, _, hq, _ => hq
  | p :: rest, d, q, hq, h => by
    rw [deleteMissingLoop]
    refine deleteMissingLoop_keep found rest _ q ?_
      (fun p2 hp2 => h p2 (List.mem_cons_of_mem p hp2))
    rw [deleteStep]
    split
    · exact hq
    · rename_i hc
      refine List.mem_filter.mpr ⟨hq, ?_⟩
      have hne := h p (List.mem_cons_self p rest)
        (fun hin => hc (contains_true_of_mem hin))
      simp [hne]

theorem deleteMissingLoop_gone (found : List String) :
    ∀ (E : List (String × FileRow)) (d : Db) (p : String × FileRow),
      p ∈ E → p.1 ∉ found →
      ∀ q ∈ (deleteMissingLoop found E d).files, q.id ≠ p.2.id
  | [], _, p, hp, _ => absurd hp (List.not_mem_nil p)
  | e :: rest, d, p, hp, hnf => by
    rw [deleteMissingLoop]
    rcases List.mem_cons.mp hp with h1 | h2
    · intro q hq
      obtain ⟨-, -, -, -, -, -, -, hfsub, -⟩ :=
        deleteMissingLoop_frame found rest (deleteStep found e d)
      have hsub := hfsub q hq
      have hstep : deleteStep found e d = deleteFileCascade d e.2.id := by
        rw [deleteStep, if_neg ?c]
        case c =>
          rw [← h1]
          intro hcon
          exact hnf (mem_of_contains_true hcon)
      rw [hstep] at hsub
      have hfil := List.of_mem_filter hsub
      rw [h1]
      intro he
      rw [he] at hfil
      simp at hfil
    · exact fun q hq =>
        deleteMissingLoop_gone found rest (deleteStep found e d) p h2 hnf q hq

theorem filesOf_mem {files : List FileRow} {iid : Nat} {q : FileRow} :
    q ∈ filesOf files iid ↔ q ∈ files ∧ q.imageset_id = iid := by
  rw [filesOf, (insSort_perm _ _).mem_iff, List.mem_filter]
  constructor
  · rintro ⟨h1, h2⟩
    exact ⟨h1, by simpa using h2⟩
  · rintro ⟨h1, h2⟩
    exact ⟨h1, by simpa using h2⟩

theorem filesOf_filenames_nodup {files : List FileRow} {iid : Nat}
    (hA : (files.map (fun q => q.id)).Nodup)
    (hC : ∀ q ∈ files, ∀ q2 ∈ files, q.imageset_id = iid →
      q2.imageset_id = iid → q.filename = q2.filename → q.id = q2.id) :
    ((filesOf files iid).map (fun f => f.filename)).Nodup := by
  have hperm : (filesOf files iid).Perm
      (files.filter (fun r => r.imageset_id == iid)) := insSort_perm _ _
  refine ((hperm.map (fun f => f.filename)).nodup_iff).mpr ?_
  have hLids : ((files.filter (fun r => r.imageset_id == iid)).map
      (fun q => q.id)).Nodup :=
    List.Nodup.sublist ((List.filter_sublist _).map _) hA
  have hpw : List.Pairwise (fun a b : FileRow => ¬ a.id = b.id)
      (files.filter (fun r => r.imageset_id == iid)) := List.pairwise_map.mp hLids
  have hpw2 : List.Pairwise (fun a b : FileRow => ¬ a.filename = b.filename)
      (files.filter (fun r => r.imageset_id == iid)) := by
    refine List.Pairwise.imp_of_mem ?_ hpw
    intro a b ha hb hne hfe
    obtain ⟨ha1, ha2⟩ := List.mem_filter.mp ha
    obtain ⟨hb1, hb2⟩ := List.mem_filter.mp hb
    have hai : a.imageset_id = iid := by simpa using ha2
    have hbi : b.imageset_id = iid := by simpa using hb2
    exact hne (hC a ha1 b hb1 hai hbi hfe)
  exact List.pairwise_map.mpr hpw2

theorem syncFromFilesystem_post (db : Db) (iid : Nat) (ifp : String)
    (imgExt : List String) (listing : List String)
    (hA : (db.files.map (fun q => q.id)).Nodup)
    (hB : ∀ q ∈ db.files, q.id < db.nextFileId)
    (hC : ∀ q ∈ db.files, ∀ q2 ∈ db.files, q.imageset_id = q2.imageset_id →
      q.filename = q2.filename → q.id = q2.id)
    (hnd : listing.Nodup) :
    (∀ nm ∈ listing, ∃ q ∈ (syncFromFilesystem db iid ifp imgExt listing true).files,
      q.imageset_id = iid ∧ q.filename = nm ∧ q.fullpath = ifp ++ "/" ++ nm) ∧
    (∀ q ∈ (syncFromFilesystem db iid ifp imgExt listing true).files,
      q.imageset_id = iid → q.filename ∈ listing ∧
        q.fullpath = ifp ++ "/" ++ q.filename) ∧
    ((syncFromFilesystem db iid ifp imgExt listing true).files.map
      (fun q => q.id)).Nodup ∧
    (∀ q ∈ (syncFromFilesystem db iid ifp imgExt listing true).files,
      q.id < (syncFromFilesystem db iid ifp imgExt listing true).nextFileId) ∧
    (∀ q ∈ (syncFromFilesystem db iid ifp imgExt listing true).files,
      ∀ q2 ∈ (syncFromFilesystem db iid ifp imgExt listing true).files,
      q.imageset_id = iid → q2.imageset_id = iid → q.filename = q2.filename →
      q.id = q2.id) := by
  have H6 : ∀ q ∈ db.files, ∀ q2 ∈ db.files, q.imageset_id = iid →
      q2.imageset_id = iid → q.filename = q2.filename → q.id = q2.id :=
    fun q hq q2 hq2 h1 h2 hf => hC q hq q2 hq2 (h1.trans h2.symm) hf
  have hdict : filesDict (filesOf db.files iid) =
      (filesOf db.files iid).map (fun f => (f.filename, f)) :=
    filesDict_pairing (filesOf_filenames_nodup hA H6)
  have hshape : ∀ p ∈ filesDict (filesOf db.files iid),
      p.2.imageset_id = iid ∧ p.2.filename = p.1 := by
    intro p hp
    rw [hdict] at hp
    obtain ⟨hmem, heq⟩ := mem_pairing hp
    exact ⟨(filesOf_mem.mp hmem).2, heq.symm⟩
  have hmemdb : ∀ p ∈ filesDict (filesOf db.files iid), p.2 ∈ db.files := by
    intro p hp
    rw [hdict] at hp
    exact (filesOf_mem.mp (mem_pairing hp).1).1
  have H3 : ∀ p ∈ filesDict (filesOf db.files iid), p.1 ∈ listing →
      ∃ q ∈ db.files, q.id = p.2.id ∧ q.imageset_id = iid ∧ q.filename = p.1 ∧
        q.fullpath = p.2.fullpath := by
    intro p hp _
    obtain ⟨h1, h2⟩ := hshape p hp
    exact ⟨p.2, hmemdb p hp, rfl, h1, h2, rfl⟩
  have H7 : ∀ nm ∈ listing,
      (filesDict (filesOf db.files iid)).find? (fun p => p.1 == nm) = none →
      ∀ q ∈ db.files, q.imageset_id = iid → q.filename ≠ nm := by
    intro nm _ hfind q hq hqi he
    have hmem : q ∈ filesOf db.files iid := filesOf_mem.mpr ⟨hq, hqi⟩
    obtain ⟨p, hfind2, -, -, -⟩ := pairing_find_mem hmem he
    rw [← hdict, hfind] at hfind2
    exact Option.noConfusion hfind2
  have H8 : ∀ p ∈ filesDict (filesOf db.files iid), p.1 ∉ listing →
      ∃ q ∈ db.files, q.id = p.2.id ∧ q.imageset_id = iid ∧ q.filename = p.1 := by
    intro p hp _
    obtain ⟨h1, h2⟩ := hshape p hp
    exact ⟨p.2, hmemdb p hp, rfl, h1, h2⟩
  obtain ⟨G1, G2, G3, G4, G5, G6, G7⟩ :=
    syncFilesLoop_run iid ifp imgExt (filesDict (filesOf db.files iid)) listing
      listing db hnd hshape H3 hA hB H6 H7 H8 (fun nm h => h)
  have hduf : syncFromFilesystem db iid ifp imgExt listing true =
      deleteMissingLoop listing (filesDict (filesOf db.files iid))
        (syncFilesLoop iid ifp imgExt (filesDict (filesOf db.files iid)) listing db) := by
    rw [syncFromFilesystem]
    rfl
  obtain ⟨hg1, hg2, hg3, hg4, hg5, hg6, hg7, hgsub, hgtag⟩ :=
    deleteMissingLoop_frame listing (filesDict (filesOf db.files iid))
      (syncFilesLoop iid ifp imgExt (filesDict (filesOf db.files iid)) listing db)
  refine ⟨?_, ?_, ?_, ?_, ?_⟩
  · intro nm hnm
    obtain ⟨q, hqf, hqi, hqnm, hqp⟩ := G1 nm hnm
    refine ⟨q, ?_, hqi, hqnm, hqp⟩
    rw [hduf]
    refine deleteMissingLoop_keep listing _ _ q hqf ?_
    intro p hp hnl he
    obtain ⟨w, hwf, hw1, hw2, hw3⟩ := G6 p hp hnl
    have heqw : q = w := files_id_inj G3 hqf hwf (he.trans hw1.symm)
    apply hnl
    rw [← hw3, ← heqw, hqnm]
    exact hnm
  · intro q hqg hqi
    rw [hduf] at hqg
    have hqf := hgsub q hqg
    have hnml : q.filename ∈ listing := by
      rcases G2 q hqf with hL | hR
      · obtain ⟨q0, hq0, h1, h2, h3⟩ := hL
        have hq0i : q0.imageset_id = iid := by rw [← h2]; exact hqi
        have hq0S : q0 ∈ filesOf db.files iid := filesOf_mem.mpr ⟨hq0, hq0i⟩
        have hpent : (q0.filename, q0) ∈ filesDict (filesOf db.files iid) := by
          rw [hdict]
          exact List.mem_map_of_mem _ hq0S
        by_contra hnot
        have hq0nl : q0.filename ∉ listing := by rw [← h3]; exact hnot
        exact deleteMissingLoop_gone listing _ _ (q0.filename, q0) hpent hq0nl q hqg h1
      · exact hR.2
    refine ⟨hnml, ?_⟩
    obtain ⟨q1, hq1f, hq1i, hq1nm, hq1p⟩ := G1 q.filename hnml
    have hid : q.id = q1.id := G5 q hqf q1 hq1f hqi hq1i hq1nm.symm
    have heq1 : q = q1 := files_id_inj G3 hqf hq1f hid
    rw [heq1, hq1nm]
    exact hq1p
  · rw [hduf]
    exact List.Nodup.sublist ((deleteMissingLoop_files_sublist listing _ _).map _) G3
  · intro q hqg
    rw [hduf] at hqg ⊢
    rw [hg6]
    exact G4 q (hgsub q hqg)
  · intro q hqg q2 hq2g h1 h2 h3
    rw [hduf] at hqg hq2g
    exact G5 q (hgsub q hqg) q2 (hgsub q2 hq2g) h1 h2 h3

theorem find?_append_none {α : Type} (p : α → Bool) :
    ∀ (l1 l2 : List α), l1.find? p = none → (l1 ++ l2).find? p = l2.find? p
  | [], _, _ => rfl
  | a :: l1, l2, h => by
    cases hc : p a with
    | true =>
      rw [List.find?_cons, hc] at h
      exact Option.noConfusion h
    | false =>
      rw [List.cons_append, List.find?_cons, hc]
      rw [List.find?_cons, hc] at h
      exact find?_append_none p l1 l2 h

theorem findIn_map_keep (u : ImagesetRow → ImagesetRow)
    (hu : ∀ r, (u r).folder_path = r.folder_path ∧ (u r).name = r.name ∧
      (u r).id = r.id)
    (fp nm : String) :
    ∀ l : List ImagesetRow,
      (imagesetsFindIn (l.map u) fp nm).map (fun r => r.id) =
        (imagesetsFindIn l fp nm).map (fun r => r.id)
  | [] => rfl
  | a :: rest => by
    rw [List.map_cons, imagesetsFindIn, imagesetsFindIn, List.find?_cons,
      List.find?_cons]
    have hcond : ((u a).folder_path == fp && (u a).name == nm) =
        (a.folder_path == fp && a.name == nm) := by
      rw [(hu a).1, (hu a).2.1]
    rw [hcond]
    cases hc : (a.folder_path == fp && a.name == nm) with
    | true => simp [(hu a).2.2]
    | false => exact findIn_map_keep u hu fp nm rest

theorem updateImagesetFields_findIn (db : Db) (iid : Nat)
    (st ed ne so : Entry) (gf pr : Prim) (fp nm : String) :
    (imagesetsFindIn (updateImagesetFields db iid st ed ne so gf pr).imagesets
        fp nm).map (fun r => r.id) =
      (imagesetsFindIn db.imagesets fp nm).map (fun r => r.id) := by
  rw [updateImagesetFields]
  refine findIn_map_keep _ ?_ fp nm db.imagesets
  intro r
  split
  · exact ⟨rfl, rfl, rfl⟩
  · exact ⟨rfl, rfl, rfl⟩

theorem updateImagesetFields_len (db : Db) (iid : Nat)
    (st ed ne so : Entry) (gf pr : Prim) :
    (updateImagesetFields db iid st ed ne so gf pr).imagesets.length =
      db.imagesets.length := by
  rw [updateImagesetFields]
  simp

theorem updateCoverOrig_findIn (db : Db) (iid : Nat)
    (co : Option String × Option String) (fp nm : String) :
    (imagesetsFindIn (updateCoverOrig db iid co).imagesets fp nm).map
        (fun r => r.id) =
      (imagesetsFindIn db.imagesets fp nm).map (fun r => r.id) := by
  rw [updateCoverOrig]
  split
  · refine findIn_map_keep _ ?_ fp nm db.imagesets
    intro r
    split
    · exact ⟨rfl, rfl, rfl⟩
    · exact ⟨rfl, rfl, rfl⟩
  · rfl

theorem syncUpsert_frame (fp nm : String) (doc : Doc) (db : Db) (fid : Nat) :
    (syncUpsert fp nm doc db fid).2.folders = db.folders ∧
    (syncUpsert fp nm doc db fid).2.sections = db.sections ∧
    (syncUpsert fp nm doc db fid).2.files = db.files ∧
    (syncUpsert fp nm doc db fid).2.tags = db.tags ∧
    (syncUpsert fp nm doc db fid).2.nextFileId = db.nextFileId ∧
    (syncUpsert fp nm doc db fid).2.nextTagId = db.nextTagId ∧
    (syncUpsert fp nm doc db fid).2.nextSectionId = db.nextSectionId := by
  rw [syncUpsert]
  cases hfind : imagesetsFindIn db.imagesets fp nm with
  | some r => exact ⟨rfl, rfl, rfl, rfl, rfl, rfl, rfl⟩
  | none => exact ⟨rfl, rfl, rfl, rfl, rfl, rfl, rfl⟩

theorem syncUpsert_findIn (fp nm : String) (doc : Doc) (db : Db) (fid : Nat) :
    (imagesetsFindIn (syncUpsert fp nm doc db fid).2.imagesets fp nm).map
        (fun r => r.id) =
      some (syncUpsert fp nm doc db fid).1 := by
  rw [syncUpsert]
  cases hfind : imagesetsFindIn db.imagesets fp nm with
  | some r =>
    simp only
    rw [updateImagesetFields_findIn, hfind]
    rfl
  | none =>
    simp only
    show (imagesetsFindIn (db.imagesets ++ [⟨db.nextImagesetId, fid, nm, fp,
      fp ++ "/" ++ nm, rawGet doc "status", rawGet doc "edits", rawGet doc "needs",
      (extractBiz doc).1, rawGet doc "source",
      extractPrompt doc (rawGet doc "source"), none, none⟩]) fp nm).map
        (fun r => r.id) = some db.nextImagesetId
    rw [imagesetsFindIn, find?_append_none _ _ _ hfind]
    simp

theorem syncUpsert_found {db : Db} {fp nm : String} {r : ImagesetRow}
    (doc : Doc) (fid : Nat)
    (hfind : imagesetsFindIn db.imagesets fp nm = some r) :
    syncUpsert fp nm doc db fid =
      (r.id, updateImagesetFields db r.id (rawGet doc "status")
        (rawGet doc "edits") (rawGet doc "needs") (rawGet doc "source")
        (extractBiz doc).1 (extractPrompt doc (rawGet doc "source"))) := by
  rw [syncUpsert]
  simp only [hfind]

theorem filesOf_ids_nodup {files : List FileRow} {iid : Nat}
    (hA : (files.map (fun q => q.id)).Nodup) :
    ((filesOf files iid).map (fun q => q.id)).Nodup := by
  have hperm := (insSort_perm (fun a b => strLeB a.filename b.filename)
    (files.filter (fun r => r.imageset_id == iid))).map (fun q => q.id)
  refine hperm.nodup_iff.mpr ?_
  exact List.Nodup.sublist ((List.filter_sublist _).map _) hA

theorem syncFromFilesystem_frame (db : Db) (iid : Nat) (ifp : String)
    (imgExt : List String) (listing : List String) (fe : Bool) :
    (syncFromFilesystem db iid ifp imgExt listing fe).folders = db.folders ∧
    (syncFromFilesystem db iid ifp imgExt listing fe).imagesets = db.imagesets ∧
    (syncFromFilesystem db iid ifp imgExt listing fe).sections = db.sections ∧
    (syncFromFilesystem db iid ifp imgExt listing fe).nextImagesetId = db.nextImagesetId ∧
    (syncFromFilesystem db iid ifp imgExt listing fe).nextSectionId = db.nextSectionId ∧
    (syncFromFilesystem db iid ifp imgExt listing fe).nextTagId = db.nextTagId := by
  cases fe with
  | false => exact ⟨rfl, rfl, rfl, rfl, rfl, rfl⟩
  | true =>
    have he : syncFromFilesystem db iid ifp imgExt listing true =
        deleteMissingLoop listing (filesDict (filesOf db.files iid))
          (syncFilesLoop iid ifp imgExt (filesDict (filesOf db.files iid))
            listing db) := by
      rw [syncFromFilesystem]
      rfl
    rw [he]
    obtain ⟨a1, a2, a3, a4, a5, a6, a7, a8⟩ :=
      syncFilesLoop_frame iid ifp imgExt (filesDict (filesOf db.files iid)) listing db
    obtain ⟨b1, b2, b3, b4, b5, b6, b7, -, -⟩ :=
      deleteMissingLoop_frame listing (filesDict (filesOf db.files iid))
        (syncFilesLoop iid ifp imgExt (filesDict (filesOf db.files iid)) listing db)
    exact ⟨b1.trans a1, b2.trans a2, b3.trans a3, b4.trans a5, b5.trans a6, b7.trans a7⟩

theorem syncFromFilesystem_id (db : Db) (iid : Nat) (ifp : String)
    (imgExt : List String) (listing : List String)
    (hA : (db.files.map (fun q => q.id)).Nodup)
    (hC : ∀ q ∈ db.files, ∀ q2 ∈ db.files, q.imageset_id = iid →
      q2.imageset_id = iid → q.filename = q2.filename → q.id = q2.id)
    (hP1 : ∀ nm ∈ listing, ∃ q ∈ db.files, q.imageset_id = iid ∧
      q.filename = nm ∧ q.fullpath = ifp ++ "/" ++ nm)
    (hP2 : ∀ q ∈ db.files, q.imageset_id = iid → q.filename ∈ listing) :
    syncFromFilesystem db iid ifp imgExt listing true = db := by
  have hdict : filesDict (filesOf db.files iid) =
      (filesOf db.files iid).map (fun f => (f.filename, f)) :=
    filesDict_pairing (filesOf_filenames_nodup hA hC)
  have hloop : syncFilesLoop iid ifp imgExt (filesDict (filesOf db.files iid))
      listing db = db := by
    refine syncFilesLoop_id iid ifp imgExt _ listing db ?_
    intro nm hnm
    obtain ⟨q, hq, hqi, hqnm, hqp⟩ := hP1 nm hnm
    have hqS : q ∈ filesOf db.files iid := filesOf_mem.mpr ⟨hq, hqi⟩
    obtain ⟨p, hfind, hp1, hp2mem, hp2nm⟩ := pairing_find_mem hqS hqnm
    refine ⟨p, by rw [hdict]; exact hfind, ?_⟩
    have hp2db : p.2 ∈ db.files := (filesOf_mem.mp hp2mem).1
    have hp2i : p.2.imageset_id = iid := (filesOf_mem.mp hp2mem).2
    have hid : p.2.id = q.id := hC p.2 hp2db q hq hp2i hqi (hp2nm.trans hqnm.symm)
    have heq : p.2 = q := files_id_inj hA hp2db hq hid
    rw [heq]
    exact hqp
  have hdel : deleteMissingLoop listing (filesDict (filesOf db.files iid)) db = db := by
    refine deleteMissingLoop_id listing _ db ?_
    intro p hp
    rw [hdict] at hp
    obtain ⟨hmem, heq⟩ := mem_pairing hp
    rw [heq]
    exact contains_true_of_mem
      (hP2 p.2 (filesOf_mem.mp hmem).1 (filesOf_mem.mp hmem).2)
  have he : syncFromFilesystem db iid ifp imgExt listing true =
      deleteMissingLoop listing (filesDict (filesOf db.files iid))
        (syncFilesLoop iid ifp imgExt (filesDict (filesOf db.files iid))
          listing db) := by
    rw [syncFromFilesystem]
    rfl
  rw [he, hloop, hdel]

theorem syncPhases_preserves_counts (env : SyncEnv) (db0 : Db) (iid : Nat)
    (hfe : env.folderExists = true)
    (hA : (db0.files.map (fun q => q.id)).Nodup)
    (hC : ∀ q ∈ db0.files, ∀ q2 ∈ db0.files, q.imageset_id = iid →
      q2.imageset_id = iid → q.filename = q2.filename → q.id = q2.id)
    (hP1 : ∀ nm ∈ env.listing, ∃ q ∈ db0.files, q.imageset_id = iid ∧
      q.filename = nm ∧
      q.fullpath = env.folder_path ++ "/" ++ env.imageset_name ++ "/" ++ nm)
    (hP2 : ∀ q ∈ db0.files, q.imageset_id = iid → q.filename ∈ env.listing)
    (hT : ∀ f ∈ filesOf db0.files iid,
      (computeTags env.fileTags f.filename).isEmpty = false →
      tagCount db0.tags f.id = (computeTags env.fileTags f.filename).length) :
    (syncPhases env db0 iid).imagesets.length = db0.imagesets.length ∧
    (syncPhases env db0 iid).files = db0.files ∧
    (syncPhases env db0 iid).tags.length = db0.tags.length := by
  obtain ⟨hs1, hs2, hs3, hs4, hs5, hs6, hs7⟩ := syncSectionsLoop_frame iid env.doc db0
  have hid : syncFromFilesystem (syncSectionsLoop iid env.doc db0) iid
      (env.folder_path ++ "/" ++ env.imageset_name) env.imgFileExt env.listing true =
      syncSectionsLoop iid env.doc db0 := by
    refine syncFromFilesystem_id _ iid _ env.imgFileExt env.listing ?_ ?_ ?_ ?_
    · rw [hs3]
      exact hA
    · rw [hs3]
      exact hC
    · rw [hs3]
      exact hP1
    · rw [hs3]
      exact hP2
  have hphases : syncPhases env db0 iid =
      updateCoverOrig
        (tagsLoop env.fileTags
          (filesOf (syncSectionsLoop iid env.doc db0).files iid)
          (syncSectionsLoop iid env.doc db0))
        iid
        (coverOrigOf
          (tagsLoop env.fileTags
            (filesOf (syncSectionsLoop iid env.doc db0).files iid)
            (syncSectionsLoop iid env.doc db0)).tags
          (filesOf (syncSectionsLoop iid env.doc db0).files iid)) := by
    simp only [syncPhases]
    rw [hfe, hid]
  obtain ⟨ht1, ht2, ht3, ht4, ht5, ht6, ht7⟩ :=
    tagsLoop_frame env.fileTags
      (filesOf (syncSectionsLoop iid env.doc db0).files iid)
      (syncSectionsLoop iid env.doc db0)
  obtain ⟨hc1, hc2, hc3, hc4, hc5, hc6, hc7⟩ :=
    updateCoverOrig_frame
      (tagsLoop env.fileTags
        (filesOf (syncSectionsLoop iid env.doc db0).files iid)
        (syncSectionsLoop iid env.doc db0))
      iid
      (coverOrigOf
        (tagsLoop env.fileTags
          (filesOf (syncSectionsLoop iid env.doc db0).files iid)
          (syncSectionsLoop iid env.doc db0)).tags
        (filesOf (syncSectionsLoop iid env.doc db0).files iid))
  refine ⟨?_, ?_, ?_⟩
  · rw [hphases, hc7, ht2, hs2]
  · rw [hphases, hc3, ht4, hs3]
  · rw [hphases, hc4]
    have hlen := tagsLoop_len env.fileTags
      (filesOf (syncSectionsLoop iid env.doc db0).files iid)
      (syncSectionsLoop iid env.doc db0) ?nodup ?cnt
    · rw [hlen, hs4]
    case nodup =>
      rw [hs3]
      exact filesOf_ids_nodup hA
    case cnt =>
      intro f hf hne
      rw [hs4]
      rw [hs3] at hf
      exact hT f hf hne

theorem syncPhases_post (env : SyncEnv) (db0 : Db) (iid : Nat)
    (hfe : env.folderExists = true)
    (hnd : env.listing.Nodup)
    (hA : (db0.files.map (fun q => q.id)).Nodup)
    (hB : ∀ q ∈ db0.files, q.id < db0.nextFileId)
    (hC : ∀ q ∈ db0.files, ∀ q2 ∈ db0.files, q.imageset_id = q2.imageset_id →
      q.filename = q2.filename → q.id = q2.id) :
    (∀ nm ∈ env.listing, ∃ q ∈ (syncPhases env db0 iid).files,
      q.imageset_id = iid ∧ q.filename = nm ∧
      q.fullpath = env.folder_path ++ "/" ++ env.imageset_name ++ "/" ++ nm) ∧
    (∀ q ∈ (syncPhases env db0 iid).files, q.imageset_id = iid →
      q.filename ∈ env.listing ∧
      q.fullpath = env.folder_path ++ "/" ++ env.imageset_name ++ "/" ++ q.filename) ∧
    ((syncPhases env db0 iid).files.map (fun q => q.id)).Nodup ∧
    (∀ q ∈ (syncPhases env db0 iid).files, ∀ q2 ∈ (syncPhases env db0 iid).files,
      q.imageset_id = iid → q2.imageset_id = iid → q.filename = q2.filename →
      q.id = q2.id) ∧
    (∀ f ∈ filesOf (syncPhases env db0 iid).files iid,
      (computeTags env.fileTags f.filename).isEmpty = false →
      tagCount (syncPhases env db0 iid).tags f.id =
        (computeTags env.fileTags f.filename).length) ∧
    (syncPhases env db0 iid).folders = db0.folders ∧
    (∀ fp2 nm2 : String,
      (imagesetsFindIn (syncPhases env db0 iid).imagesets fp2 nm2).map
        (fun r => r.id) =
      (imagesetsFindIn db0.imagesets fp2 nm2).map (fun r => r.id)) ∧
    (syncPhases env db0 iid).imagesets.length = db0.imagesets.length := by
  obtain ⟨hs1, hs2, hs3, hs4, hs5, hs6, hs7⟩ := syncSectionsLoop_frame iid env.doc db0
  obtain ⟨P1, P2, P3, P4, P5⟩ :=
    syncFromFilesystem_post (syncSectionsLoop iid env.doc db0) iid
      (env.folder_path ++ "/" ++ env.imageset_name) env.imgFileExt env.listing
      (by rw [hs3]; exact hA)
      (by intro q hq; rw [hs6]; rw [hs3] at hq; exact hB q hq)
      (by rw [hs3]; exact hC)
      hnd
  obtain ⟨hf1, hf2, hf3, hf4, hf5, hf6⟩ :=
    syncFromFilesystem_frame (syncSectionsLoop iid env.doc db0) iid
      (env.folder_path ++ "/" ++ env.imageset_name) env.imgFileExt env.listing true
  have hphases : syncPhases env db0 iid =
      updateCoverOrig
        (tagsLoop env.fileTags
          (filesOf (syncFromFilesystem (syncSectionsLoop iid env.doc db0) iid
            (env.folder_path ++ "/" ++ env.imageset_name) env.imgFileExt
            env.listing true).files iid)
          (syncFromFilesystem (syncSectionsLoop iid env.doc db0) iid
            (env.folder_path ++ "/" ++ env.imageset_name) env.imgFileExt
            env.listing true))
        iid
        (coverOrigOf
          (tagsLoop env.fileTags
            (filesOf (syncFromFilesystem (syncSectionsLoop iid env.doc db0) iid
              (env.folder_path ++ "/" ++ env.imageset_name) env.imgFileExt
              env.listing true).files iid)
            (syncFromFilesystem (syncSectionsLoop iid env.doc db0) iid
              (env.folder_path ++ "/" ++ env.imageset_name) env.imgFileExt
              env.listing true)).tags
          (filesOf (syncFromFilesystem (syncSectionsLoop iid env.doc db0) iid
            (env.folder_path ++ "/" ++ env.imageset_name) env.imgFileExt
            env.listing true).files iid)) := by
    simp only [syncPhases]
    rw [hfe]
  obtain ⟨ht1, ht2, ht3, ht4, ht5, ht6, ht7⟩ :=
    tagsLoop_frame env.fileTags
      (filesOf (syncFromFilesystem (syncSectionsLoop iid env.doc db0) iid
        (env.folder_path ++ "/" ++ env.imageset_name) env.imgFileExt
        env.listing true).files iid)
      (syncFromFilesystem (syncSectionsLoop iid env.doc db0) iid
        (env.folder_path ++ "/" ++ env.imageset_name) env.imgFileExt
        env.listing true)
  obtain ⟨hc1, hc2, hc3, hc4, hc5, hc6, hc7⟩ :=
    updateCoverOrig_frame
      (tagsLoop env.fileTags
        (filesOf (syncFromFilesystem (syncSectionsLoop iid env.doc db0) iid
          (env.folder_path ++ "/" ++ env.imageset_name) env.imgFileExt
          env.listing true).files iid)
        (syncFromFilesystem (syncSectionsLoop iid env.doc db0) iid
          (env.folder_path ++ "/" ++ env.imageset_name) env.imgFileExt
          env.listing true))
      iid
      (coverOrigOf
        (tagsLoop env.fileTags
          (filesOf (syncFromFilesystem (syncSectionsLoop iid env.doc db0) iid
            (env.folder_path ++ "/" ++ env.imageset_name) env.imgFileExt
            env.listing true).files iid)
          (syncFromFilesystem (syncSectionsLoop iid env.doc db0) iid
            (env.folder_path ++ "/" ++ env.imageset_name) env.imgFileExt
            env.listing true)).tags
        (filesOf (syncFromFilesystem (syncSectionsLoop iid env.doc db0) iid
          (env.folder_path ++ "/" ++ env.imageset_name) env.imgFileExt
          env.listing true).files iid))
  have hfilesD : (syncPhases env db0 iid).files =
      (syncFromFilesystem (syncSectionsLoop iid env.doc db0) iid
        (env.folder_path ++ "/" ++ env.imageset_name) env.imgFileExt
        env.listing true).files := by
    rw [hphases, hc3, ht4]
  have htagsD : (syncPhases env db0 iid).tags =
      (tagsLoop env.fileTags
        (filesOf (syncFromFilesystem (syncSectionsLoop iid env.doc db0) iid
          (env.folder_path ++ "/" ++ env.imageset_name) env.imgFileExt
          env.listing true).files iid)
        (syncFromFilesystem (syncSectionsLoop iid env.doc db0) iid
          (env.folder_path ++ "/" ++ env.imageset_name) env.imgFileExt
          env.listing true)).tags := by
    rw [hphases, hc4]
  refine ⟨?_, ?_, ?_, ?_, ?_, ?_, ?_, ?_⟩
  · intro nm hnm
    rw [hfilesD]
    exact P1 nm hnm
  · intro q hq hqi
    rw [hfilesD] at hq
    exact P2 q hq hqi
  · rw [hfilesD]
    exact P3
  · intro q hq q2 hq2 h1 h2 h3
    rw [hfilesD] at hq hq2
    exact P5 q hq q2 hq2 h1 h2 h3
  · intro f hf hne
    rw [htagsD]
    rw [hfilesD] at hf
    exact tagsLoop_establish env.fileTags _ _ (filesOf_ids_nodup P3) f hf hne
  · rw [hphases, hc1, ht1, hf1, hs1]
  · intro fp2 nm2
    rw [hphases, updateCoverOrig_findIn, ht2, hf2, hs2]
  · rw [hphases, hc7, ht2, hf2, hs2]

/-- C8: running the TOML-to-database sync twice in a row on an unchanged
imageset folder is idempotent at the row level: under the schema invariants of
db/utils.py (pairwise distinct AUTOINCREMENT file ids below the next id, and
UNIQUE(imageset_id, filename)) and a duplicate-free folder listing, after a
successful first run the second run leaves the row counts of the imagesets,
imagesetfiles and imagesetfile_tags tables unchanged. -/
theorem c8_sync_idempotent_rowcounts (env : SyncEnv) (db : Db)
    (hwf : DbWF db) (hnd : env.listing.Nodup)
    (hok : (syncImagesetTomlToDb env db).1.isSome = true) :
    (syncImagesetTomlToDb env (syncImagesetTomlToDb env db).2).2.imagesets.length =
      (syncImagesetTomlToDb env db).2.imagesets.length ∧
    (syncImagesetTomlToDb env (syncImagesetTomlToDb env db).2).2.files.length =
      (syncImagesetTomlToDb env db).2.files.length ∧
    (syncImagesetTomlToDb env (syncImagesetTomlToDb env db).2).2.tags.length =
      (syncImagesetTomlToDb env db).2.tags.length := by
  obtain ⟨hwA, hwB, hwC⟩ := hwf
  have hfe : env.folderExists = true := by
    by_contra h
    have hf : env.folderExists = false := Bool.of_not_eq_true h
    rw [syncImagesetTomlToDb, hf] at hok
    simp at hok
  have hok2 := hok
  rw [syncImagesetTomlToDb, hfe, if_neg (by simp)] at hok2
  cases hfold : foldersLookup db.folders env.folder_path with
  | none =>
    rw [hfold] at hok2
    simp at hok2
  | some frec =>
    have hrun1 : syncImagesetTomlToDb env db =
        (if (syncUpsert env.folder_path env.imageset_name env.doc db frec.id).1 == 0
         then (none, (syncUpsert env.folder_path env.imageset_name env.doc db frec.id).2)
         else (some (syncUpsert env.folder_path env.imageset_name env.doc db frec.id).1,
           syncPhases env
             (syncUpsert env.folder_path env.imageset_name env.doc db frec.id).2
             (syncUpsert env.folder_path env.imageset_name env.doc db frec.id).1)) := by
      rw [syncImagesetTomlToDb, hfe, if_neg (by simp), hfold]
    by_cases hiid : ((syncUpsert env.folder_path env.imageset_name env.doc db frec.id).1 == 0) = true
    · rw [hrun1, if_pos hiid] at hok
      simp at hok
    · have hrun1v : syncImagesetTomlToDb env db =
          (some (syncUpsert env.folder_path env.imageset_name env.doc db frec.id).1,
           syncPhases env
             (syncUpsert env.folder_path env.imageset_name env.doc db frec.id).2
             (syncUpsert env.folder_path env.imageset_name env.doc db frec.id).1) :=
        hrun1.trans (if_neg hiid)
      obtain ⟨hu1, hu2, hu3, hu4, hu5, hu6, hu7⟩ :=
        syncUpsert_frame env.folder_path env.imageset_name env.doc db frec.id
      have hufind := syncUpsert_findIn env.folder_path env.imageset_name env.doc db frec.id
      set U := syncUpsert env.folder_path env.imageset_name env.doc db frec.id with hU
      obtain ⟨A1, A2, A3, A4, A5, A6, A7, A8⟩ :=
        syncPhases_post env U.2 U.1 hfe hnd
          (by rw [hu3]; exact hwA)
          (by intro q hq; rw [hu5]; rw [hu3] at hq; exact hwB q hq)
          (by rw [hu3]; exact hwC)
      have hfold2 : foldersLookup (syncPhases env U.2 U.1).folders env.folder_path =
          some frec := by
        rw [A6, hu1]
        exact hfold
      have hfid : (imagesetsFindIn (syncPhases env U.2 U.1).imagesets
          env.folder_path env.imageset_name).map (fun r => r.id) = some U.1 := by
        rw [A7 env.folder_path env.imageset_name]
        exact hufind
      cases hfind2 : imagesetsFindIn (syncPhases env U.2 U.1).imagesets
          env.folder_path env.imageset_name with
      | none =>
        rw [hfind2] at hfid
        exact absurd hfid (by simp)
      | some r2 =>
        rw [hfind2] at hfid
        have hr2id : r2.id = U.1 := by simpa using hfid
        have hupsert2 := @syncUpsert_found (syncPhases env U.2 U.1) env.folder_path
          env.imageset_name r2 env.doc frec.id hfind2
        have hiid2 : ((syncUpsert env.folder_path env.imageset_name env.doc
            (syncPhases env U.2 U.1) frec.id).1 == 0) = false := by
          rw [hupsert2]
          simp only
          rw [hr2id]
          exact Bool.of_not_eq_true hiid
        have hrun2 : syncImagesetTomlToDb env (syncPhases env U.2 U.1) =
            (some r2.id,
             syncPhases env
               (updateImagesetFields (syncPhases env U.2 U.1) r2.id
                 (rawGet env.doc "status") (rawGet env.doc "edits")
                 (rawGet env.doc "needs") (rawGet env.doc "source")
                 (extractBiz env.doc).1
                 (extractPrompt env.doc (rawGet env.doc "source")))
               r2.id) := by
          rw [syncImagesetTomlToDb, hfe, if_neg (by simp), hfold2]
          simp only [hupsert2]
          rw [if_neg (by rw [hr2id]; exact hiid)]
        obtain ⟨hm1, hm2, hm3, hm4, hm5, hm6⟩ :=
          updateImagesetFields_frame (syncPhases env U.2 U.1) r2.id
            (rawGet env.doc "status") (rawGet env.doc "edits")
            (rawGet env.doc "needs") (rawGet env.doc "source")
            (extractBiz env.doc).1
            (extractPrompt env.doc (rawGet env.doc "source"))
        obtain ⟨B1, B2, B3⟩ :=
          syncPhases_preserves_counts env
            (updateImagesetFields (syncPhases env U.2 U.1) r2.id
              (rawGet env.doc "status") (rawGet env.doc "edits")
              (rawGet env.doc "needs") (rawGet env.doc "source")
              (extractBiz env.doc).1
              (extractPrompt env.doc (rawGet env.doc "source")))
            r2.id hfe
            (by rw [hm3]; exact A3)
            (by rw [hm3, hr2id]; exact A4)
            (by rw [hm3, hr2id]; exact A1)
            (by
              rw [hm3, hr2id]
              intro q hq hqi
              exact (A2 q hq hqi).1)
            (by
              rw [hm3, hm4, hr2id]
              exact A5)
        rw [hrun1v]
        simp only
        rw [hrun2]
        simp only
        refine ⟨?_, ?_, ?_⟩
        · rw [B1, updateImagesetFields_len]
        · rw [B2, hm3]
        · rw [B3, hm4]

theorem c8_sync_idempotent_rowcounts_witness :
    (syncImagesetTomlToDb
        ⟨"/f", "cat", true, [("status", .p (.s "new"))],
          ["cat_orig.png", "cat.toml"], ["orig"], ["png"]⟩
        (syncImagesetTomlToDb
          ⟨"/f", "cat", true, [("status", .p (.s "new"))],
            ["cat_orig.png", "cat.toml"], ["orig"], ["png"]⟩
          ⟨[⟨1, "f", "/f"⟩], [], [], [], [], 1, 1, 1, 1⟩).2).2.imagesets.length =
      (syncImagesetTomlToDb
        ⟨"/f", "cat", true, [("status", .p (.s "new"))],
          ["cat_orig.png", "cat.toml"], ["orig"], ["png"]⟩
        ⟨[⟨1, "f", "/f"⟩], [], [], [], [], 1, 1, 1, 1⟩).2.imagesets.length ∧
    (syncImagesetTomlToDb
        ⟨"/f", "cat", true, [("status", .p (.s "new"))],
          ["cat_orig.png", "cat.toml"], ["orig"], ["png"]⟩
        (syncImagesetTomlToDb
          ⟨"/f", "cat", true, [("status", .p (.s "new"))],
            ["cat_orig.png", "cat.toml"], ["orig"], ["png"]⟩
          ⟨[⟨1, "f", "/f"⟩], [], [], [], [], 1, 1, 1, 1⟩).2).2.files.length =
      (syncImagesetTomlToDb
        ⟨"/f", "cat", true, [("status", .p (.s "new"))],
          ["cat_orig.png", "cat.toml"], ["orig"], ["png"]⟩
        ⟨[⟨1, "f", "/f"⟩], [], [], [], [], 1, 1, 1, 1⟩).2.files.length ∧
    (syncImagesetTomlToDb
        ⟨"/f", "cat", true, [("status", .p (.s "new"))],
          ["cat_orig.png", "cat.toml"], ["orig"], ["png"]⟩
        (syncImagesetTomlToDb
          ⟨"/f", "cat", true, [("status", .p (.s "new"))],
            ["cat_orig.png", "cat.toml"], ["orig"], ["png"]⟩
          ⟨[⟨1, "f", "/f"⟩], [], [], [], [], 1, 1, 1, 1⟩).2).2.tags.length =
      (syncImagesetTomlToDb
        ⟨"/f", "cat", true, [("status", .p (.s "new"))],
          ["cat_orig.png", "cat.toml"], ["orig"], ["png"]⟩
        ⟨[⟨1, "f", "/f"⟩], [], [], [], [], 1, 1, 1, 1⟩).2.tags.length :=
  c8_sync_idempotent_rowcounts
    ⟨"/f", "cat", true, [("status", .p (.s "new"))],
      ["cat_orig.png", "cat.toml"], ["orig"], ["png"]⟩
    ⟨[⟨1, "f", "/f"⟩], [], [], [], [], 1, 1, 1, 1⟩
    ⟨by decide, by decide, by decide⟩ (by decide) (by decide)

end ImgCatalog
